import Mathlib

/-!
Shallow embedding of the `project-indices-analyzer` backend
(`src/backend/database.py`, `src/backend/services.py`, `src/backend/main.py`).

The SQLAlchemy entity store is modelled as a `Store` of plain record lists.
Sessions are modelled write-through (a query sees all staged changes) except in
`process_index_csv`, where the commit boundaries of the source are material to
the claims about atomicity and primary-key failures and are therefore modelled
explicitly: each `db.commit()` either promotes the pending inserts into the
committed store or fails when a composite primary key would be violated.
Python floats (`0.7`, `file_size_kb`) are modelled as exact rationals; byte
decoding (`utf-8` / `latin-1` fallback) is abstracted away by taking the
decoded text lines / parsed rows as input.
-/

namespace ProjIdx

/-! ### String helpers mirroring the Python string operations used -/

/-- Python `s.split(c)[0]`: the portion of `s` before the first occurrence of
the character `c` (the whole string when `c` does not occur). -/
def beforeChar (c : Char) (s : String) : String :=
  String.mk (s.data.takeWhile (fun a => a != c))

/-- Python `s.split(c)[-1]`: the portion of `s` after the last occurrence of
the character `c` (the whole string when `c` does not occur). -/
def afterLastChar (c : Char) (s : String) : String :=
  String.mk ((s.data.reverse.takeWhile (fun a => a != c)).reverse)

/-- Whitespace characters recognised by Python `str.strip()` (the ones that
can occur in the CSV inputs). -/
def isPyWS (c : Char) : Bool :=
  c == ' ' || c == '\t' || c == '\n' || c == '\r'

/-- Python `s.strip()`. -/
def pyStrip (s : String) : String :=
  String.mk (((s.data.dropWhile isPyWS).reverse.dropWhile isPyWS).reverse)

/-- Python `s.upper()` (ASCII, which covers the repository's inputs). -/
def pyUpper (s : String) : String :=
  String.mk (s.data.map Char.toUpper)

/-- Python `s.lower()` (ASCII, which covers the repository's inputs). -/
def pyLower (s : String) : String :=
  String.mk (s.data.map Char.toLower)

/-- Substring test on character lists: `hasSubAux l pat` is true when some
suffix of `l` starts with `pat`. -/
def hasSubAux : List Char → List Char → Bool
  | l, pat =>
    if pat.isPrefixOf l then true
    else
      match l with
      | [] => false
      | _ :: tl => hasSubAux tl pat

/-- Python `pat in s` on strings (substring containment). -/
def strContains (s pat : String) : Bool :=
  hasSubAux s.data pat.data

/-! ### The entity store (`src/backend/database.py`) -/

/-- Row of the `indices` table (`class Index`, database.py lines 32-67). -/
structure IndexRec where
  id : Nat
  name : String
  category : Option String
  display_name : String
  tv_ticker : Option String
  expected_filename : Option String
  is_at_52wh : Bool
  original_filename : Option String
  upload_date : Nat
  file_size_kb : Option ℚ
  record_count : Nat
deriving Repr, DecidableEq

/-- Row of the `stocks` table (`class Stock`, database.py lines 70-76). -/
structure StockRec where
  id : Nat
  ticker : String
deriving Repr, DecidableEq

/-- Row of the `index_constituents` table (`class IndexConstituent`,
database.py lines 79-86); the pair `(index_id, stock_id)` is the composite
primary key. -/
structure ConstituentRec where
  index_id : Nat
  stock_id : Nat
deriving Repr, DecidableEq

/-- Row of the `tv_map` table (`class TradingViewMap`, database.py
lines 89-97); `tv_alert_name` is the primary key. -/
structure TVMapRec where
  tv_alert_name : String
  index_id : Nat
deriving Repr, DecidableEq

/-- The whole database.  `nextIndexId` / `nextStockId` model the
autoincrementing surrogate ids. -/
structure Store where
  indices : List IndexRec
  stocks : List StockRec
  constituents : List ConstituentRec
  tvmap : List TVMapRec
  nextIndexId : Nat
  nextStockId : Nat
deriving Repr, DecidableEq

/-- The empty database. -/
def Store.empty : Store := ⟨[], [], [], [], 0, 0⟩

/-- Update the index row with id `i` (id is the primary key, so at most one
row matches in a well-formed store); mirrors attribute assignment on a mapped
object. -/
def updIdx (s : Store) (i : Nat) (f : IndexRec → IndexRec) : Store :=
  { s with indices := s.indices.map (fun j => if j.id = i then f j else j) }

/-- The committed membership edges of index `i` (the `Index.stocks`
relationship restricted to one index). -/
def edgesOf (s : Store) (i : Nat) : List ConstituentRec :=
  s.constituents.filter (fun c => c.index_id == i)

/-- The composite primary key of an `index_constituents` row. -/
def edgeKey (c : ConstituentRec) : Nat × Nat := (c.index_id, c.stock_id)

/-! ### Configuration Reconciler (`process_master_config_csv`, services.py 13-102)

The master CSV is modelled as a list of already-parsed `DictReader` rows with
string values (missing columns read as `""`, matching `row.get(_, '')`).

The session is configured `autocommit=False, autoflush=False` (database.py
line 15), so every SELECT issued inside the batch filters on the *flushed*
state of the transaction: attribute assignments staged on session objects are
invisible to query filtering until a `db.flush()` — which this function issues
only when a new Index is created (services.py line 56), and which then pushes
every staged change of the batch at once — or the final `db.commit()`
(services.py line 101).  The model therefore carries a pair of stores: the
flushed store that queries filter on, and the session store holding the staged
object state.  A query hit is decided by the flushed row, but the object it
returns — the one the code then mutates — is the session row with the same
primary key.  A flush or commit validates the staged configuration against the
schema constraints this function can touch: UNIQUE `Index.name` (database.py
line 39), UNIQUE `Index.expected_filename` (database.py line 53) and the
`tv_map.tv_alert_name` primary key (database.py line 92).  Updates flush in
staging order, so within one flush a steal's clear precedes the assignment and
the constraints judge the net staged configuration; a violation raises
`IntegrityError`, the surrounding transaction is rolled back, and nothing of
the batch commits. -/

/-- One row of the master configuration CSV. -/
structure ConfigRow where
  Filename : String
  Name : String
  DisplayName : String
  Category : String
  TVTicker : String
deriving Repr, DecidableEq

/-- A freshly created `Index(name=final_name)` with the column defaults of
database.py (display_name "Unnamed Index", record_count 0, nullable columns
NULL, `upload_date` defaulting to the insertion time `now`). -/
def freshIndex (i : Nat) (final_name : String) (now : Nat) : IndexRec :=
  { id := i, name := final_name, category := none,
    display_name := "Unnamed Index", tv_ticker := none,
    expected_filename := none, is_at_52wh := false,
    original_filename := none, upload_date := now,
    file_size_kb := none, record_count := 0 }

/-- The unique/primary-key constraints that a flush or commit of the
reconciler's staged changes must satisfy: UNIQUE `Index.name` (database.py
line 39), UNIQUE nullable `Index.expected_filename` (database.py line 53 — a
non-null value is held by at most one row, rows being identified by the `id`
primary key) and the `tv_map.tv_alert_name` primary key (database.py
line 92). -/
def cfgConstraintsOk (s : Store) : Prop :=
  (s.indices.map (fun j => j.name)).Nodup ∧
  (∀ a ∈ s.indices, ∀ b ∈ s.indices,
    a.expected_filename ≠ none → a.expected_filename = b.expected_filename → a.id = b.id) ∧
  (s.tvmap.map (fun m => m.tv_alert_name)).Nodup

instance (s : Store) : Decidable (cfgConstraintsOk s) :=
  inferInstanceAs (Decidable (_ ∧ _))

/-- The two views an `autoflush=False` session gives one transaction:
`flushed` is the state SELECTs filter on, `session` is the staged object state
that attribute assignments and `db.add` mutate. -/
structure CfgSession where
  flushed : Store
  session : Store
deriving Repr, DecidableEq

/-- A freshly begun transaction: nothing staged, queries and objects agree. -/
def CfgSession.clean (s : Store) : CfgSession := ⟨s, s⟩

/-- `db.flush()` (and the flushing half of `db.commit()`): push every staged
change of the session to the transaction, after validating the staged
configuration against the unique constraints; `none` is the raised
`IntegrityError`. -/
def cfgFlush (cs : CfgSession) : Option CfgSession :=
  if cfgConstraintsOk cs.session then some ⟨cs.session, cs.session⟩ else none

/-- Step 2, display name (services.py 59-60):
`if row.get('DisplayName'): index.display_name = ...`. -/
def stepDisplay (s : Store) (i0 : Nat) (row : ConfigRow) : Store :=
  if row.DisplayName ≠ "" then
    updIdx s i0 (fun j => { j with display_name := row.DisplayName })
  else s

/-- Step 2, category (services.py 62-63):
`if row.get('Category'): index.category = ...`. -/
def stepCategory (s : Store) (i0 : Nat) (row : ConfigRow) : Store :=
  if row.Category ≠ "" then
    updIdx s i0 (fun j => { j with category := some row.Category })
  else s

/-- Step 2, TV ticker (services.py 66-67):
`index.tv_ticker = tv_ticker if tv_ticker else None`. -/
def stepTV (s : Store) (i0 : Nat) (tv : String) : Store :=
  updIdx s i0 (fun j => { j with tv_ticker := if tv = "" then none else some tv })

/-- Step 3, the "steal" logic (services.py 69-84).  The conflict SELECT
(services.py 75-78) filters on the flushed store — with `autoflush=False`, a
holder staged earlier in the same batch and never flushed is not seen.  When a
flushed conflict row is found, `conflict_index.expected_filename = None`
(services.py 83) is staged on the session row with that id (`.first()` clears
one row; `id` is the primary key, so at most one row matches). -/
def stageSteal (flushed s : Store) (i0 : Nat) (filename : String) : Store :=
  if filename ≠ "" then
    match flushed.indices.find? (fun j => j.expected_filename == some filename && j.id != i0) with
    | some conflict => updIdx s conflict.id (fun j => { j with expected_filename := none })
    | none => s
  else s

/-- Step 3, assignment (services.py 87): `index.expected_filename =
new_filename`, unconditional — an empty incoming filename clears the field. -/
def stepAssign (s : Store) (i0 : Nat) (filename : String) : Store :=
  updIdx s i0
    (fun j => { j with expected_filename := if filename = "" then none else some filename })

/-- Step 4 of a config row (services.py 89-96), guarded by `if
index.tv_ticker:` (line 90; step 2 just staged that attribute, so the guard is
the row's stripped TVTicker being non-empty).  The lookup of services.py 91
SELECTs the flushed `tv_map`; a pending insert staged by an earlier row of the
batch and not yet flushed is invisible to it, so a repeated ticker stages a
second insert carrying the same primary key.  On a hit, the update
`existing_map.index_id = index.id` (services.py 96) is staged on the session
row with that key. -/
def stageTVUpsert (flushed s : Store) (tv : String) (i0 : Nat) : Store :=
  if tv ≠ "" then
    if (flushed.tvmap.find? (fun m => m.tv_alert_name == tv)).isSome then
      { s with tvmap :=
          s.tvmap.map (fun m => if m.tv_alert_name == tv then { m with index_id := i0 } else m) }
    else
      { s with tvmap := s.tvmap ++ [⟨tv, i0⟩] }
  else s

/-- Steps 2-4 of a config row (services.py 58-96) applied to the target index
`i0`, in source order: every write is staged on the session store, every
SELECT filters on the flushed store. -/
def updateConfigSteps (cs : CfgSession) (i0 : Nat) (row : ConfigRow) (filename : String) :
    CfgSession :=
  ⟨cs.flushed,
    stageTVUpsert cs.flushed
      (stepAssign
        (stageSteal cs.flushed
          (stepTV (stepCategory (stepDisplay cs.session i0 row) i0 row) i0
            (pyStrip row.TVTicker))
          i0 filename)
        i0 filename)
      (pyStrip row.TVTicker) i0⟩

/-- Step 1 of a config row (services.py 36-45): identify the target index by
(uppercased, stripped) name first, then by expected filename.  Both SELECTs
filter on the flushed store (`autoflush=False`: changes staged by earlier rows
of the batch are invisible until a flush); the object a hit returns is the
session row with the matched primary key, so the resolution is its id. -/
def cfgResolve (flushed : Store) (name filename : String) : Option Nat :=
  match (if name ≠ "" then flushed.indices.find? (fun j => j.name == name) else none) with
  | some j => some j.id
  | none =>
    if filename ≠ "" then
      (flushed.indices.find? (fun j => j.expected_filename == some filename)).map (fun j => j.id)
    else none

/-- `final_name = name if name else filename.upper()` (services.py 49). -/
def configFinalName (row : ConfigRow) : String :=
  if pyUpper (pyStrip row.Name) ≠ "" then pyUpper (pyStrip row.Name)
  else pyUpper (pyStrip row.Filename)

/-- Processing of a single master-config row (the body of the `for row in
reader` loop, services.py 28-98).  Returns the new session pair and whether
the row counted towards `processed_count`; `none` when the row creates a new
Index and the accompanying `db.flush()` (services.py 56) raises — that flush
pushes every change staged by the batch so far, and a staged configuration
violating a unique constraint aborts the whole batch.  Creation is guarded by
the duplicate-name safety check of services.py 50-52, a SELECT on the flushed
store. -/
def processConfigRow (now : Nat) (cs : CfgSession) (row : ConfigRow) :
    Option (CfgSession × Bool) :=
  if pyStrip row.Filename = "" ∧ pyUpper (pyStrip row.Name) = "" then some (cs, false)
  else
    match cfgResolve cs.flushed (pyUpper (pyStrip row.Name)) (pyStrip row.Filename) with
    | some i0 => some (updateConfigSteps cs i0 row (pyStrip row.Filename), true)
    | none =>
      if (cs.flushed.indices.find? (fun j => j.name == configFinalName row)).isSome then
        some (cs, false)
      else
        match cfgFlush ⟨cs.flushed,
            { cs.session with
                indices := cs.session.indices ++
                  [freshIndex cs.session.nextIndexId (configFinalName row) now],
                nextIndexId := cs.session.nextIndexId + 1 }⟩ with
        | some cs2 =>
          some (updateConfigSteps cs2 cs.session.nextIndexId row (pyStrip row.Filename), true)
        | none => none

/-- The `for row in reader` loop of `process_master_config_csv`
(services.py 28-98) over the parsed rows, threading the session pair and
`processed_count`; `none` once a mid-batch flush has raised. -/
def cfgRunRows (now : Nat) (rows : List ConfigRow) (start : Option (CfgSession × Nat)) :
    Option (CfgSession × Nat) :=
  rows.foldl
    (fun acc row =>
      match acc with
      | some (cs, n) =>
        match processConfigRow now cs row with
        | some r => some (r.1, n + (if r.2 then 1 else 0))
        | none => none
      | none => none)
    start

/-- The tail of `process_master_config_csv`: the final `db.commit()`
(services.py 101) validates and commits the staged state; a raised
`IntegrityError` — here or earlier, at a mid-batch flush (`none` input) —
rolls the transaction back, leaving the input store `s` committed. -/
def cfgCommit (s : Store) (res : Option (CfgSession × Nat)) : Store × Option Nat :=
  match res with
  | some (cs, n) =>
    match cfgFlush cs with
    | some cs2 => (cs2.session, some n)
    | none => (s, none)
  | none => (s, none)

/-- `process_master_config_csv` (services.py 13-102) over the parsed rows.
On success the final `db.commit()` (services.py 101) flushes and commits the
staged state, and the function returns it with `some processed_count`.  On a
constraint violation — at the final commit or at a mid-batch flush — the
`IntegrityError` propagates out of the function, the transaction is rolled
back, and the committed store is the input store unchanged, returned with
`none`. -/
def process_master_config_csv (s : Store) (rows : List ConfigRow) (now : Nat) :
    Store × Option Nat :=
  cfgCommit s (cfgRunRows now rows (some (CfgSession.clean s, 0)))

/-! ### Constituent Loader (`process_index_csv`, services.py 109-188)

The session commit boundaries matter here (the constituent delete is committed
on its own at services.py 173, and `get_or_create_stock` commits mid-loop at
services.py 115), so the loader is modelled with explicit commits: pending
`IndexConstituent` inserts accumulate and are flushed at each commit, and a
flush fails — rolling back exactly that commit and raising — when the
composite primary key `(index_id, stock_id)` of `index_constituents` would be
violated.  Stock rows are committed immediately upon creation by
`get_or_create_stock` and are never pending afterwards. -/

/-- Whether flushing `pending` on top of `committed` satisfies the composite
primary key of `index_constituents` (committed rows are pairwise distinct in a
well-formed store, so this is plain `Nodup` of all keys). -/
def flushOk (committed pending : List ConstituentRec) : Prop :=
  ((committed ++ pending).map edgeKey).Nodup

instance (committed pending : List ConstituentRec) : Decidable (flushOk committed pending) :=
  inferInstanceAs (Decidable (List.Nodup _))

/-- Ticker extraction (services.py 177): for each CSV line, take the first
field, strip it, uppercase it, and drop rows that are empty (`csv.reader`
yields no row for a blank line) or whose first field strips to nothing. -/
def extractTickers (lines : List String) : List String :=
  lines.filterMap (fun line =>
    if line = "" then none
    else
      let f := pyUpper (pyStrip (beforeChar ',' line))
      if f = "" then none else some f)

/-- `file_name.upper().split('.')[0]` (services.py 136). -/
def indexNameFromFile (file_name : String) : String :=
  beforeChar '.' (pyUpper file_name)

/-- Step A (services.py 127-129): `if index_id: ...` — Python truthiness, so
id 0 or None falls through to the automatic matches. -/
def resolveById (s : Store) (index_id : Option Nat) : Option IndexRec :=
  match index_id with
  | some i => if i ≠ 0 then s.indices.find? (fun j => j.id == i) else none
  | none => none

/-- Steps A-C of the index resolution (services.py 127-138): explicit id,
then `expected_filename` match, then the legacy name-from-filename match. -/
def resolveIndex (s : Store) (file_name : String) (index_id : Option Nat) :
    Option IndexRec :=
  match resolveById s index_id with
  | some j => some j
  | none =>
    match s.indices.find? (fun j => j.expected_filename == some file_name) with
    | some j => some j
    | none => s.indices.find? (fun j => j.name == indexNameFromFile file_name)

/-- The return value of `process_index_csv` (services.py 188). -/
structure LoadResult where
  index_name : String
  stocks_added : Nat
deriving Repr, DecidableEq

/-- The commit inside `get_or_create_stock` (services.py 113-116) for a new
ticker `t`: the flush writes the pending constituent inserts and the new
stock row in one transaction. -/
def commitStock (s : Store) (pending : List ConstituentRec) (t : String) : Store :=
  { s with stocks := s.stocks ++ [⟨s.nextStockId, t⟩],
           nextStockId := s.nextStockId + 1,
           constituents := s.constituents ++ pending }

/-- The constituent loop (services.py 179-183) together with the commits
performed inside `get_or_create_stock` (services.py 109-117).  State: the
committed store `s`, the pending constituent inserts, and `stock_count`.
A known ticker adds a pending edge without any commit; an unknown ticker
triggers `db.add(Stock); db.commit()`, which flushes the pending edges and the
new stock — returning `none` (an exception, with `s` the state committed so
far) when the flush violates the primary key. -/
def loadLoop (i0 : Nat) : List String → Store → List ConstituentRec → Nat →
    Store × Option (List ConstituentRec × Nat)
  | [], s, pending, cnt => (s, some (pending, cnt))
  | t :: ts, s, pending, cnt =>
    match s.stocks.find? (fun st => st.ticker == t) with
    | some st => loadLoop i0 ts s (pending ++ [⟨i0, st.id⟩]) (cnt + 1)
    | none =>
      if flushOk s.constituents pending then
        loadLoop i0 ts (commitStock s pending t) [⟨i0, s.nextStockId⟩] (cnt + 1)
      else (s, none)

/-- The stock id resolved for a ticker in the committed store (junk value 0
when absent; `get_or_create_stock` guarantees presence before use). -/
def sidOf (s : Store) (t : String) : Nat :=
  match s.stocks.find? (fun st => st.ticker == t) with
  | some st => st.id
  | none => 0

/-- The conditional category fill of services.py 151-152: `if category and
(not index.category or index.category == "Uncategorized")`. -/
def categoryFill (category : Option String) (j : IndexRec) : IndexRec :=
  match category with
  | some c =>
    if j.category = none ∨ j.category = some "" ∨ j.category = some "Uncategorized"
    then { j with category := some c } else j
  | none => j

/-- Step 2 of `process_index_csv` (services.py 150-156) as an update of the
target index row: conditional category fill, then the unconditional upload
metadata overwrite. -/
def metaUpdate (file_name : String) (file_size_kb : ℚ) (now : Nat)
    (category : Option String) (j : IndexRec) : IndexRec :=
  { categoryFill category j with original_filename := some file_name,
                                 file_size_kb := some file_size_kb, upload_date := now }

/-- Step 3, first half (services.py 172-173): bulk-delete the target index's
constituents, committed on its own. -/
def clearConstituents (s : Store) (i0 : Nat) : Store :=
  { s with constituents := s.constituents.filter (fun c => c.index_id != i0) }

/-- The Index row created by step 1.D of `process_index_csv`
(services.py 141-148). -/
def loaderNewIndex (s : Store) (file_name : String) (now : Nat)
    (category : Option String) : IndexRec :=
  { id := s.nextIndexId, name := indexNameFromFile file_name,
    display_name := String.mk
      ((indexNameFromFile file_name).data.map (fun c => if c = '_' then ' ' else c)),
    category := some (category.getD "Uncategorized"),
    tv_ticker := none, expected_filename := some file_name,
    is_at_52wh := false, original_filename := none,
    upload_date := now, file_size_kb := none, record_count := 0 }

/-- The final commit of `process_index_csv` (services.py 185-186): the flush
writes the pending edges together with the `record_count` update, or raises
on a duplicate primary key, committing nothing of this flush. -/
def loaderFinish : Store × Option (List ConstituentRec × Nat) → Nat → String →
    Store × Option LoadResult
  | (s3, none), _, _ => (s3, none)
  | (s3, some (pending, cnt)), i0, iname =>
    if flushOk s3.constituents pending then
      (updIdx { s3 with constituents := s3.constituents ++ pending } i0
        (fun j => { j with record_count := cnt }),
       some { index_name := iname, stocks_added := cnt })
    else (s3, none)

/-- Steps 2-3 of `process_index_csv` (services.py 150-188) for an already
determined target index `i0` named `iname`: metadata commit, constituent
delete commit, the reinsert loop with its mid-loop commits, and the final
commit. -/
def processResolved (s : Store) (i0 : Nat) (iname : String) (file_name : String)
    (lines : List String) (file_size_kb : ℚ) (now : Nat) (category : Option String) :
    Store × Option LoadResult :=
  loaderFinish
    (loadLoop i0 (extractTickers lines)
      (clearConstituents (updIdx s i0 (metaUpdate file_name file_size_kb now category)) i0)
      [] 0)
    i0 iname

/-- `process_index_csv` (services.py 119-188).  Input: the committed store,
the upload's filename, its decoded text lines, size, the wall clock `now`
(for `upload_date`), the optional explicit index id and fallback category
(`none` models a Python-falsy value).  Output: the finally committed store
and `some` result on success / `none` when the operation raised. -/
def process_index_csv (s : Store) (file_name : String) (lines : List String)
    (file_size_kb : ℚ) (now : Nat) (index_id : Option Nat) (category : Option String) :
    Store × Option LoadResult :=
  -- Step 1: find the target index (services.py 124-148), creating it when
  -- steps A-C find nothing.
  match resolveIndex s file_name index_id with
  | some j => processResolved s j.id j.name file_name lines file_size_kb now category
  | none =>
    processResolved
      { s with indices := s.indices ++ [loaderNewIndex s file_name now category],
               nextIndexId := s.nextIndexId + 1 }
      s.nextIndexId (indexNameFromFile file_name) file_name lines file_size_kb now category

/-- The running invariant of the constituent loop: counters line up, every
pending edge belongs to the target index, every processed ticker has a
committed stock, the store's uniqueness constraints hold, and the committed
edges of the target index followed by the pending ones are exactly one edge
per processed ticker occurrence. -/
def LoopInv (i0 : Nat) (s : Store) (pending : List ConstituentRec) (cnt : Nat)
    (p : List String) : Prop :=
  (s.stocks.map (fun st => st.ticker)).Nodup ∧
  (s.stocks.map (fun st => st.id)).Nodup ∧
  (∀ st ∈ s.stocks, st.id < s.nextStockId) ∧
  (s.constituents.map edgeKey).Nodup ∧
  (∀ c ∈ pending, c.index_id = i0) ∧
  cnt = p.length ∧
  (∀ t ∈ p, (s.stocks.find? (fun st => st.ticker == t)).isSome) ∧
  edgesOf s i0 ++ pending = p.map (fun t => ConstituentRec.mk i0 (sidOf s t))

/-! ### Overlap Analyzer (`analyze_common_stocks`, services.py 195-267) -/

/-- One row of the commonality result. -/
structure CommonRow where
  stock : String
  appears_in : Nat
  indices : List String
deriving Repr, DecidableEq

/-- The analysis summary. -/
structure AnalysisSummary where
  total_unique_stocks : Nat
  avg_overlap : ℚ
  high_overlap_stocks : Nat
deriving Repr, DecidableEq

/-- The full analysis result. -/
structure AnalysisResult where
  analysis_of : List String
  commonality : List CommonRow
  summary : AnalysisSummary
deriving Repr, DecidableEq

/-- `db.query(Index)...filter(Index.id.in_(index_ids)).all()` (services.py
197-199): the matching indices in store order. -/
def selectedIndices (s : Store) (index_ids : List Nat) : List IndexRec :=
  s.indices.filter (fun j => index_ids.contains j.id)

/-- The tickers of one index's membership list, in edge order
(`for constituent in index.stocks: constituent.stock.ticker`).  A dangling
`stock_id` cannot occur under the store's foreign-key integrity; it is read as
`""` to keep the function total. -/
def constituentTickers (s : Store) (i : Nat) : List String :=
  (edgesOf s i).map (fun c =>
    match s.stocks.find? (fun st => st.id == c.stock_id) with
    | some st => st.ticker
    | none => "")

/-- The (display_name, ticker) pairs in processing order (the nested loop of
services.py 218-225). -/
def tickerPairs (s : Store) (sel : List IndexRec) : List (String × String) :=
  sel.flatMap (fun j => (constituentTickers s j.id).map (fun t => (j.display_name, t)))

/-- `all_tickers` (services.py 213, 222): every ticker occurrence across the
selected indices, in processing order. -/
def allTickers (s : Store) (sel : List IndexRec) : List String :=
  (tickerPairs s sel).map Prod.snd

/-- The distinct elements of `l` in first-encounter order — the key order of
`Counter(all_tickers)` / `ticker_to_indices_map` (insertion-ordered dicts). -/
def firstOccKeys (l : List String) : List String :=
  l.foldl (fun acc t => if t ∈ acc then acc else acc ++ [t]) []

/-- `commonality_list` before sorting (services.py 227-237): one row per
distinct ticker in first-encounter order, with its occurrence count and the
display names of the indices it appears in (one entry per occurrence, in
processing order). -/
def commonalityUnsorted (s : Store) (sel : List IndexRec) : List CommonRow :=
  let pairs := tickerPairs s sel
  let all := pairs.map Prod.snd
  (firstOccKeys all).map (fun t =>
    { stock := t, appears_in := all.count t,
      indices := (pairs.filter (fun p => p.2 == t)).map Prod.fst })

/-- Stable descending insertion by `appears_in`: the inserted row goes before
the first row with a count not greater than its own, so earlier rows with an
equal count stay in front. -/
def insertByCountDesc (x : CommonRow) : List CommonRow → List CommonRow
  | [] => [x]
  | y :: ys => if x.appears_in < y.appears_in then y :: insertByCountDesc x ys
               else x :: y :: ys

/-- `sorted(commonality_list, key=lambda x: x['appears_in'], reverse=True)`
(services.py 240).  Python's sort is stable and `reverse=True` keeps equal
elements in their original order; this stable descending insertion sort
produces exactly that list. -/
def sortByCountDesc (l : List CommonRow) : List CommonRow :=
  l.foldr insertByCountDesc []

/-- `analyze_common_stocks` (services.py 195-267).  `0.7` and the float
division/round are modelled as exact rationals (`round(x, 1)` half-away
rounding differences do not affect any claim). -/
def analyze_common_stocks (s : Store) (index_ids : List Nat) : AnalysisResult :=
  let sel := selectedIndices s index_ids
  if sel.isEmpty then
    { analysis_of := [], commonality := [],
      summary := { total_unique_stocks := 0, avg_overlap := 0, high_overlap_stocks := 0 } }
  else
    let index_names := sel.map (fun j => j.display_name)
    let total_indices_selected := sel.length
    let sorted_list := sortByCountDesc (commonalityUnsorted s sel)
    let total_unique_stocks := sorted_list.length
    let summary : AnalysisSummary :=
      if 0 < total_unique_stocks then
        let total_appearances := (sorted_list.map (fun r => r.appears_in)).sum
        let avg_overlap : ℚ := (total_appearances : ℚ) / (total_unique_stocks : ℚ)
        let high_overlap_threshold : ℚ := 0.7 * (total_indices_selected : ℚ)
        { total_unique_stocks := total_unique_stocks,
          avg_overlap := (round (avg_overlap * 10) : ℤ) / 10,
          high_overlap_stocks :=
            (sorted_list.filter (fun r => (r.appears_in : ℚ) ≥ high_overlap_threshold)).length }
      else
        { total_unique_stocks := total_unique_stocks, avg_overlap := 0,
          high_overlap_stocks := 0 }
    { analysis_of := index_names, commonality := sorted_list, summary := summary }

/-! ### Alert Mapper (`parse_tradingview_csv`, services.py 272-338)

Two revisions of this function exist in the repository: the one in
`services.py` (trigger substrings `"high"` / `"low"`) and an older inline copy
in `main.py` 198-266 whose trigger literals `"New 52-Week High!"` /
`"New 52-Week Low!"` contain uppercase letters and therefore never match the
lowercased description.  The ticker-cleaning fallback, the `"Not mapped"`
placeholder and the date normalisation are identical in both.  The embedding
below follows `services.py`; `mainClassifyFlag` is not needed by any claim and
is not defined. -/

/-- One `DictReader` row of a TradingView alert CSV.  `ticker` / `symbol`
are `row.get('Ticker')` / `row.get('Symbol')` (absent column ↦ `none`);
`description` and `time` are `row.get(_, '')`. -/
structure AlertRow where
  ticker : Option String
  symbol : Option String
  description : String
  time : String
deriving Repr, DecidableEq

/-- `row.get('Ticker') or row.get('Symbol')` followed by the
`if not ticker: continue` guard: the effective ticker of a row, `none` when
the row is skipped (both fields absent or empty). -/
def effTicker (r : AlertRow) : Option String :=
  let first : Option String :=
    match r.ticker with
    | some t => if t ≠ "" then some t else none
    | none => none
  match first with
  | some t => some t
  | none =>
    match r.symbol with
    | some t => if t ≠ "" then some t else none
    | none => none

/-- Signal classification (services.py 291-297) on the lowercased
description: `"high"` first, then `"low"`, else `"Unknown"`. -/
def classifyFlag (descriptionLower : String) : String :=
  if strContains descriptionLower "high" then "High"
  else if strContains descriptionLower "low" then "Low"
  else "Unknown"

/-- Ticker cleaning for the fallback lookup (services.py 311-312):
`ticker.split(',')[0].split(':')[-1]` — drop a trailing comma-delimited
timeframe suffix, then drop any colon-delimited exchange prefix. -/
def cleanTicker (ticker : String) : String :=
  afterLastChar ':' (beforeChar ',' ticker)

/-- Index resolution for one alert ticker (services.py 299-316): exact
`tv_map` match first; otherwise the cleaned token is looked up as an index
`name` (case-sensitive); no match yields a null id with the "Not mapped"
placeholder. -/
def resolveAlert (s : Store) (ticker : String) : Option Nat × String :=
  match s.tvmap.find? (fun m => m.tv_alert_name == ticker) with
  | some m =>
    match s.indices.find? (fun j => j.id == m.index_id) with
    | some j => (some m.index_id, j.display_name)
    | none => (some m.index_id, "Not mapped")
  | none =>
    match s.indices.find? (fun j => j.name == cleanTicker ticker) with
    | some j => (some j.id, j.display_name)
    | none => (none, "Not mapped")

/-- The guarded date expression (services.py 318-319):
`time_str.split('T')[0] if 'T' in time_str else time_str`.  On a string this
expression cannot raise, so its evaluation always yields `some`; `none` would
model a raised exception. -/
def formatDateTry (time_str : String) : Option String :=
  some (if time_str.data.contains 'T' then beforeChar 'T' time_str else time_str)

/-- Date normalisation with the `except` fallback (services.py 318-321). -/
def formatDate (time_str : String) : String :=
  (formatDateTry time_str).getD "Invalid Date"

/-- One record of the alert-processing output (services.py 323-329). -/
structure AlertRecord where
  ticker : String
  flag_type : String
  mapped_index_id : Option Nat
  mapped_index_name : String
  date : String
deriving Repr, DecidableEq

/-- The alert batch output (services.py 331-338). -/
structure AlertOutput where
  records : List AlertRecord
  total_alerts : Nat
  highs : Nat
  lows : Nat
deriving Repr, DecidableEq

/-- The record built for one kept row. -/
def mkAlertRecord (s : Store) (t : String) (r : AlertRow) : AlertRecord :=
  let res := resolveAlert s t
  { ticker := t, flag_type := classifyFlag (pyLower r.description),
    mapped_index_id := res.1, mapped_index_name := res.2,
    date := formatDate r.time }

/-- The body of the `for row in reader` loop of `parse_tradingview_csv`
(services.py 284-329) acting on the accumulated (records, highs, lows). -/
def alertStep (s : Store) (acc : List AlertRecord × Nat × Nat) (r : AlertRow) :
    List AlertRecord × Nat × Nat :=
  match effTicker r with
  | none => acc
  | some t =>
    let descriptionLower := pyLower r.description
    let highs := acc.2.1 + (if strContains descriptionLower "high" then 1 else 0)
    let lows := acc.2.2 +
      (if ¬ strContains descriptionLower "high" ∧ strContains descriptionLower "low"
       then 1 else 0)
    (acc.1 ++ [mkAlertRecord s t r], highs, lows)

/-- `parse_tradingview_csv` (services.py 272-338) over the parsed rows.
`total_alerts` is `len(records)` (services.py 334). -/
def parse_tradingview_csv (s : Store) (rows : List AlertRow) : AlertOutput :=
  let out := rows.foldl (alertStep s) ([], 0, 0)
  { records := out.1, total_alerts := out.1.length, highs := out.2.1, lows := out.2.2 }

/-! ### Store well-formedness

These predicates capture the schema constraints that SQLite enforces for the
tables of database.py: primary-key/unique columns.  Every store reachable
through the committed operations satisfies them; claims that quantify over a
starting store take them as hypotheses. -/

/-- `Index.name` is declared `unique` (database.py line 39). -/
def NamesOk (s : Store) : Prop :=
  (s.indices.map (fun j => j.name)).Nodup

/-- `Index.expected_filename` is declared `unique, nullable` (database.py
line 53): a non-null value is held by at most one index. -/
def ExpOk (s : Store) : Prop :=
  ∀ a ∈ s.indices, ∀ b ∈ s.indices,
    a.expected_filename ≠ none → a.expected_filename = b.expected_filename → a.id = b.id

/-- `tv_map.tv_alert_name` is the primary key (database.py line 92). -/
def TVOk (s : Store) : Prop :=
  (s.tvmap.map (fun m => m.tv_alert_name)).Nodup

/-- Stock tickers are unique (database.py line 73) and ids are unique and
below the autoincrement counter. -/
def StocksOk (s : Store) : Prop :=
  (s.stocks.map (fun st => st.ticker)).Nodup ∧
  (s.stocks.map (fun st => st.id)).Nodup ∧
  ∀ st ∈ s.stocks, st.id < s.nextStockId

/-- The composite primary key of `index_constituents` (database.py 81-82). -/
def EdgesOk (s : Store) : Prop :=
  (s.constituents.map edgeKey).Nodup

/-- The store constraints relevant to the Constituent Loader. -/
def LoadWF (s : Store) : Prop :=
  StocksOk s ∧ EdgesOk s ∧ (s.indices.map (fun j => j.id)).Nodup ∧
  ∀ j ∈ s.indices, j.id < s.nextIndexId

instance (s : Store) : Decidable (NamesOk s) :=
  inferInstanceAs (Decidable (List.Nodup _))

instance (s : Store) : Decidable (ExpOk s) :=
  inferInstanceAs (Decidable (∀ a ∈ _, ∀ b ∈ _, _ → _ → _))

instance (s : Store) : Decidable (TVOk s) :=
  inferInstanceAs (Decidable (List.Nodup _))

instance (s : Store) : Decidable (StocksOk s) :=
  inferInstanceAs (Decidable (_ ∧ _))

instance (s : Store) : Decidable (EdgesOk s) :=
  inferInstanceAs (Decidable (List.Nodup _))

instance (s : Store) : Decidable (LoadWF s) :=
  inferInstanceAs (Decidable (_ ∧ _))

/-! ### Helper lemmas about the Alert Mapper -/

theorem classifyFlag_eq_high_iff (d : String) :
    classifyFlag d = "High" ↔ strContains d "high" = true := by
  unfold classifyFlag
  cases h1 : strContains d "high" <;> cases h2 : strContains d "low" <;> simp

theorem classifyFlag_eq_low_iff (d : String) :
    classifyFlag d = "Low" ↔ (strContains d "high" = false ∧ strContains d "low" = true) := by
  unfold classifyFlag
  cases h1 : strContains d "high" <;> cases h2 : strContains d "low" <;> simp

theorem alertFold_mem (s : Store) (rows : List AlertRow) :
    ∀ (acc : List AlertRecord × Nat × Nat), ∀ r ∈ (rows.foldl (alertStep s) acc).1,
      r ∈ acc.1 ∨ ∃ row ∈ rows, ∃ t, effTicker row = some t ∧ r = mkAlertRecord s t row := by
  induction rows with
  | nil => intro acc r hr; exact Or.inl hr
  | cons row rows ih =>
    intro acc r hr
    rw [List.foldl_cons] at hr
    rcases ih _ r hr with h | ⟨row2, hrow2, t, ht, heq⟩
    · cases hef : effTicker row with
      | none => rw [alertStep, hef] at h; exact Or.inl h
      | some t =>
        rw [alertStep, hef] at h
        rcases List.mem_append.1 h with h2 | h2
        · exact Or.inl h2
        · exact Or.inr ⟨row, List.mem_cons_self _ _, t, hef, List.mem_singleton.1 h2⟩
    · exact Or.inr ⟨row2, List.mem_cons_of_mem _ hrow2, t, ht, heq⟩

theorem alertFold_len (s : Store) (rows : List AlertRow) :
    ∀ (acc : List AlertRecord × Nat × Nat),
      (rows.foldl (alertStep s) acc).1.length =
        acc.1.length + (rows.filter (fun row => (effTicker row).isSome)).length := by
  induction rows with
  | nil => intro acc; simp
  | cons row rows ih =>
    intro acc
    rw [List.foldl_cons, ih]
    cases hef : effTicker row with
    | none => rw [alertStep, hef]; simp [hef]
    | some t => rw [alertStep, hef]; simp [hef]; omega

theorem alertFold_highs (s : Store) (rows : List AlertRow) :
    ∀ (acc : List AlertRecord × Nat × Nat),
      acc.2.1 = (acc.1.filter (fun r => r.flag_type == "High")).length →
      (rows.foldl (alertStep s) acc).2.1 =
        ((rows.foldl (alertStep s) acc).1.filter (fun r => r.flag_type == "High")).length := by
  induction rows with
  | nil => intro acc h; exact h
  | cons row rows ih =>
    intro acc h
    rw [List.foldl_cons]
    apply ih
    cases hef : effTicker row with
    | none => rw [alertStep, hef]; exact h
    | some t =>
      rw [alertStep, hef]
      simp only [List.filter_append, List.length_append, h]
      have hflag : (mkAlertRecord s t row).flag_type = classifyFlag (pyLower row.description) := rfl
      cases hc : strContains (pyLower row.description) "high" with
      | true =>
        have : (mkAlertRecord s t row).flag_type = "High" := by
          rw [hflag, classifyFlag_eq_high_iff]; exact hc
        simp [this]
      | false =>
        have : ¬ (mkAlertRecord s t row).flag_type = "High" := by
          rw [hflag]
          intro hcontra
          rw [classifyFlag_eq_high_iff] at hcontra
          rw [hc] at hcontra
          exact Bool.false_ne_true hcontra
        simp [List.filter_singleton, this]

theorem alertFold_lows (s : Store) (rows : List AlertRow) :
    ∀ (acc : List AlertRecord × Nat × Nat),
      acc.2.2 = (acc.1.filter (fun r => r.flag_type == "Low")).length →
      (rows.foldl (alertStep s) acc).2.2 =
        ((rows.foldl (alertStep s) acc).1.filter (fun r => r.flag_type == "Low")).length := by
  induction rows with
  | nil => intro acc h; exact h
  | cons row rows ih =>
    intro acc h
    rw [List.foldl_cons]
    apply ih
    cases hef : effTicker row with
    | none => rw [alertStep, hef]; exact h
    | some t =>
      rw [alertStep, hef]
      simp only [List.filter_append, List.length_append, h]
      have hflag : (mkAlertRecord s t row).flag_type = classifyFlag (pyLower row.description) := rfl
      by_cases hc : strContains (pyLower row.description) "high" = false ∧
          strContains (pyLower row.description) "low" = true
      · have : (mkAlertRecord s t row).flag_type = "Low" := by
          rw [hflag, classifyFlag_eq_low_iff]; exact hc
        have hnothigh : ¬ strContains (pyLower row.description) "high" = true := by
          rw [hc.1]; exact Bool.false_ne_true
        simp [this, hnothigh, hc.2]
      · have : ¬ (mkAlertRecord s t row).flag_type = "Low" := by
          rw [hflag]
          intro hcontra
          rw [classifyFlag_eq_low_iff] at hcontra
          exact hc hcontra
        have hcond : ¬ (¬ strContains (pyLower row.description) "high" = true ∧
            strContains (pyLower row.description) "low" = true) := by
          intro ⟨h1, h2⟩
          exact hc ⟨Bool.not_eq_true _ ▸ Bool.of_not_eq_true h1, h2⟩
        rw [if_neg hcond]
        simp [List.filter_singleton, this]

theorem contains_takeWhile_split (l : List Char) (h : l.contains 'T' = true) :
    ∃ rest, l = l.takeWhile (fun c => c != 'T') ++ 'T' :: rest := by
  induction l with
  | nil => simp at h
  | cons c cs ih =>
    by_cases hc : c = 'T'
    · subst hc
      exact ⟨cs, by simp⟩
    · have hne : (c != 'T') = true := by simp [hc]
      have h2 : cs.contains 'T' = true := by
        rw [List.contains_cons] at h
        rcases Bool.or_eq_true_iff.1 h with h3 | h3
        · exact absurd (beq_iff_eq.1 h3).symm hc
        · exact h3
      obtain ⟨rest, hr⟩ := ih h2
      refine ⟨rest, ?_⟩
      rw [List.takeWhile_cons, hne]
      simpa using hr

/-! ### Claim theorems for the Alert Mapper (C5, C6, C9) -/

/-- C5, counterexample: the claim reads "rows whose lowercased description
contains the high trigger are classified High, those containing the low
trigger are classified Low"; a description containing both triggers (here
"Higher Low", whose lowercasing contains both "high" and "low") is classified
"High", not "Low", because services.py 292-295 checks the high trigger first
(`if ... elif ...`). -/
theorem C5_precedence_counterexample :
    strContains (pyLower "Higher Low") "low" = true ∧
    (parse_tradingview_csv Store.empty
        [⟨some "AAA", none, "Higher Low", "2024-01-02"⟩]).records.map
      (fun r => r.flag_type) = ["High"] := by
  constructor
  · decide
  · decide

/-- C5 (amended): every ticker-bearing row is classified from its lowercased
description with the high trigger checked first — containing "high" gives
High, containing "low" but not "high" gives Low, neither gives Unknown; an
Unknown classification does not prevent the record from appearing in the
output (the record count equals the number of ticker-bearing rows), and the
returned highs/lows counters equal the number of rows classified High and Low
respectively. -/
theorem C5_classification_and_counters (s : Store) (rows : List AlertRow) :
    (∀ r ∈ (parse_tradingview_csv s rows).records,
      ∃ row ∈ rows, effTicker row = some r.ticker ∧
        r.flag_type = (if strContains (pyLower row.description) "high" = true then "High"
          else if strContains (pyLower row.description) "low" = true then "Low"
          else "Unknown")) ∧
    (parse_tradingview_csv s rows).records.length =
      (rows.filter (fun row => (effTicker row).isSome)).length ∧
    (parse_tradingview_csv s rows).highs =
      ((parse_tradingview_csv s rows).records.filter (fun r => r.flag_type == "High")).length ∧
    (parse_tradingview_csv s rows).lows =
      ((parse_tradingview_csv s rows).records.filter (fun r => r.flag_type == "Low")).length := by
  refine ⟨?_, ?_, ?_, ?_⟩
  · intro r hr
    rcases alertFold_mem s rows ([], 0, 0) r hr with h | ⟨row, hrow, t, ht, heq⟩
    · exact absurd h (List.not_mem_nil r)
    · refine ⟨row, hrow, ?_, ?_⟩
      · rw [heq]; exact ht
      · rw [heq]
        show classifyFlag (pyLower row.description) = _
        unfold classifyFlag
        cases h1 : strContains (pyLower row.description) "high" <;>
          cases h2 : strContains (pyLower row.description) "low" <;> simp
  · simpa using alertFold_len s rows ([], 0, 0)
  · exact alertFold_highs s rows ([], 0, 0) rfl
  · exact alertFold_lows s rows ([], 0, 0) rfl

/-- Witness for `C5_classification_and_counters` at a concrete batch: one
"high" row and one unclassifiable row, which still appears in the output. -/
theorem C5_classification_and_counters_witness :
    (parse_tradingview_csv Store.empty
      [⟨some "T1", none, "New 52-Week High!", ""⟩,
       ⟨some "T2", none, "price update", ""⟩]).records.length = 2 ∧
    (parse_tradingview_csv Store.empty
      [⟨some "T1", none, "New 52-Week High!", ""⟩,
       ⟨some "T2", none, "price update", ""⟩]).highs = 1 := by
  have h := C5_classification_and_counters Store.empty
    [⟨some "T1", none, "New 52-Week High!", ""⟩, ⟨some "T2", none, "price update", ""⟩]
  refine ⟨?_, ?_⟩
  · rw [h.2.1]; decide
  · rw [h.2.2.1]; decide

/-- C6: with no exact `tv_map` entry for the raw ticker, the Alert Mapper
strips the trailing comma-delimited timeframe suffix and the colon-delimited
exchange prefix and looks the remaining token up as an index name
(case-sensitive); "NSE:NIFTYBANK, 1D" cleans to "NIFTYBANK"; a hit maps to
that index, a miss yields a null id with the "Not mapped" placeholder, and
every output record carries exactly this resolution. -/
theorem C6_fallback_resolution (s : Store) (ticker : String)
    (hnomap : ∀ m ∈ s.tvmap, m.tv_alert_name ≠ ticker) :
    cleanTicker "NSE:NIFTYBANK, 1D" = "NIFTYBANK" ∧
    (∀ j, s.indices.find? (fun j2 => j2.name == cleanTicker ticker) = some j →
      resolveAlert s ticker = (some j.id, j.display_name)) ∧
    (s.indices.find? (fun j2 => j2.name == cleanTicker ticker) = none →
      resolveAlert s ticker = (none, "Not mapped")) ∧
    (∀ (rows : List AlertRow), ∀ r ∈ (parse_tradingview_csv s rows).records,
      (r.mapped_index_id, r.mapped_index_name) = resolveAlert s r.ticker) := by
  have hfind : s.tvmap.find? (fun m => m.tv_alert_name == ticker) = none := by
    rw [List.find?_eq_none]
    intro m hm
    simp [hnomap m hm]
  refine ⟨by decide, ?_, ?_, ?_⟩
  · intro j hj
    unfold resolveAlert
    rw [hfind, hj]
  · intro hj
    unfold resolveAlert
    rw [hfind, hj]
  · intro rows r hr
    rcases alertFold_mem s rows ([], 0, 0) r hr with h | ⟨row, _, t, _, heq⟩
    · exact absurd h (List.not_mem_nil r)
    · rw [heq]
      show ((resolveAlert s t).1, (resolveAlert s t).2) = resolveAlert s t
      exact Prod.mk.eta

/-- Witness for `C6_fallback_resolution`: a store mapping no alert tickers but
holding an index named "NIFTYBANK"; the raw ticker "NSE:NIFTYBANK, 1D"
resolves to it via the cleaning fallback. -/
theorem C6_fallback_resolution_witness :
    resolveAlert
      ⟨[⟨3, "NIFTYBANK", none, "Nifty Bank", none, none, false, none, 0, none, 0⟩],
        [], [], [], 4, 0⟩ "NSE:NIFTYBANK, 1D" = (some 3, "Nifty Bank") := by
  exact (C6_fallback_resolution
    ⟨[⟨3, "NIFTYBANK", none, "Nifty Bank", none, none, false, none, 0, none, 0⟩],
      [], [], [], 4, 0⟩ "NSE:NIFTYBANK, 1D" (by decide)).2.1
    ⟨3, "NIFTYBANK", none, "Nifty Bank", none, none, false, none, 0, none, 0⟩ (by decide)

/-- C9: the output date of every processed alert row is the portion of the
Time string before the first 'T' when one occurs and the unchanged Time
string otherwise; the guarded expression of services.py 319 is total on
strings, so the "Invalid Date" fallback branch is never taken for a string
input. -/
theorem C9_date_normalization :
    (∀ t : String, (formatDateTry t).isSome = true) ∧
    (∀ t : String, t.data.contains 'T' = false → formatDate t = t) ∧
    (∀ t : String, t.data.contains 'T' = true →
      formatDate t = beforeChar 'T' t ∧
      'T' ∉ (beforeChar 'T' t).data ∧
      ∃ rest, t.data = (beforeChar 'T' t).data ++ 'T' :: rest) ∧
    (∀ (s : Store) (rows : List AlertRow), ∀ r ∈ (parse_tradingview_csv s rows).records,
      ∃ row ∈ rows, r.date = formatDate row.time) := by
  refine ⟨fun t => rfl, ?_, ?_, ?_⟩
  · intro t ht
    show (formatDateTry t).getD "Invalid Date" = t
    rw [formatDateTry, ht]
    rfl
  · intro t ht
    refine ⟨?_, ?_, ?_⟩
    · show (formatDateTry t).getD "Invalid Date" = _
      rw [formatDateTry, ht]
      rfl
    · intro hmem
      have := List.mem_takeWhile_imp hmem
      simp at this
    · exact contains_takeWhile_split t.data ht
  · intro s rows r hr
    rcases alertFold_mem s rows ([], 0, 0) r hr with h | ⟨row, hrow, t, _, heq⟩
    · exact absurd h (List.not_mem_nil r)
    · exact ⟨row, hrow, by rw [heq]; rfl⟩

/-- Witness for `C9_date_normalization` at concrete time strings with and
without a 'T' separator. -/
theorem C9_date_normalization_witness :
    formatDate "2024-01-02T10:00:00" = beforeChar 'T' "2024-01-02T10:00:00" ∧
    formatDate "02/01/2024" = "02/01/2024" := by
  exact ⟨(C9_date_normalization.2.2.1 "2024-01-02T10:00:00" (by decide)).1,
    C9_date_normalization.2.1 "02/01/2024" (by decide)⟩

/-! ### Concrete counterexample and demonstration theorems (C1, C2, C4) -/

/-- C1, counterexample: uploading `NIFTY_BANK.csv` with lines HDFCBANK,
ICICIBANK, HDFCBANK (3 non-empty ticker lines, one duplicate) into an empty
store does NOT produce `record_count = 3` with 3 membership edges: the second
HDFCBANK edge collides with the composite primary key `(index_id, stock_id)`
of `index_constituents`, the final commit of services.py 186 raises, the call
reports no success, and the committed store holds a single edge with the
index's `record_count` still 0. -/
theorem C1_duplicate_ticker_counterexample :
    extractTickers ["HDFCBANK", "ICICIBANK", "HDFCBANK"] =
      ["HDFCBANK", "ICICIBANK", "HDFCBANK"] ∧
    (process_index_csv Store.empty "NIFTY_BANK.csv"
        ["HDFCBANK", "ICICIBANK", "HDFCBANK"] 1 7 none none).2 = none ∧
    (process_index_csv Store.empty "NIFTY_BANK.csv"
        ["HDFCBANK", "ICICIBANK", "HDFCBANK"] 1 7 none none).1.constituents.length = 1 ∧
    (∀ j ∈ (process_index_csv Store.empty "NIFTY_BANK.csv"
        ["HDFCBANK", "ICICIBANK", "HDFCBANK"] 1 7 none none).1.indices,
      j.record_count ≠ 3) := by
  refine ⟨by decide, by decide, by decide, by decide⟩

/-- C2: the delete-all-edges plus reinsert sequence is NOT atomic in the
committed store.  Failing input: an index `NIFTY_BANK` (auto-matched via its
`expected_filename`) whose membership is one RELIANCE edge, uploaded with the
duplicate-ticker file HDFCBANK, ICICIBANK, HDFCBANK.  The constituent delete
is committed on its own (services.py 173) and `get_or_create_stock` commits
mid-loop (services.py 115), so when the final commit raises on the duplicate
primary key the committed store shows the old edge deleted and exactly one of
the new edges inserted — a half-replaced membership set — while the claim
(and the spec) demand that this never be visible in the committed state. -/
theorem C2_nonatomic_replacement_demo :
    (process_index_csv
        ⟨[⟨0, "NIFTY_BANK", some "Banking", "Nifty Bank", none, some "NIFTY_BANK.csv",
            false, none, 0, none, 1⟩],
         [⟨0, "RELIANCE"⟩], [⟨0, 0⟩], [], 1, 1⟩
        "NIFTY_BANK.csv" ["HDFCBANK", "ICICIBANK", "HDFCBANK"] 1 7 none none).2 = none ∧
    (process_index_csv
        ⟨[⟨0, "NIFTY_BANK", some "Banking", "Nifty Bank", none, some "NIFTY_BANK.csv",
            false, none, 0, none, 1⟩],
         [⟨0, "RELIANCE"⟩], [⟨0, 0⟩], [], 1, 1⟩
        "NIFTY_BANK.csv" ["HDFCBANK", "ICICIBANK", "HDFCBANK"] 1 7 none none).1.constituents =
      [⟨0, 1⟩] := by
  refine ⟨by decide, by decide⟩

/-! ### Helper lemmas about the Overlap Analyzer's sort and counting -/

theorem mem_insertByCountDesc {x z : CommonRow} {l : List CommonRow}
    (h : z ∈ insertByCountDesc x l) : z = x ∨ z ∈ l := by
  induction l with
  | nil => simpa [insertByCountDesc] using h
  | cons y ys ih =>
    rw [insertByCountDesc] at h
    by_cases hc : x.appears_in < y.appears_in
    · rw [if_pos hc] at h
      rcases List.mem_cons.1 h with h2 | h2
      · exact Or.inr (h2 ▸ List.mem_cons_self y ys)
      · rcases ih h2 with h3 | h3
        · exact Or.inl h3
        · exact Or.inr (List.mem_cons_of_mem y h3)
    · rw [if_neg hc] at h
      rcases List.mem_cons.1 h with h2 | h2
      · exact Or.inl h2
      · exact Or.inr h2

theorem insertByCountDesc_pairwise {x : CommonRow} {l : List CommonRow}
    (h : List.Pairwise (fun a b => b.appears_in ≤ a.appears_in) l) :
    List.Pairwise (fun a b => b.appears_in ≤ a.appears_in) (insertByCountDesc x l) := by
  induction l with
  | nil => simp [insertByCountDesc]
  | cons y ys ih =>
    rw [insertByCountDesc]
    rcases List.pairwise_cons.1 h with ⟨hy, hys⟩
    by_cases hc : x.appears_in < y.appears_in
    · rw [if_pos hc]
      refine List.pairwise_cons.2 ⟨?_, ih hys⟩
      intro z hz
      rcases mem_insertByCountDesc hz with h2 | h2
      · exact h2 ▸ Nat.le_of_lt hc
      · exact hy z h2
    · rw [if_neg hc]
      refine List.pairwise_cons.2 ⟨?_, h⟩
      intro z hz
      rcases List.mem_cons.1 hz with h2 | h2
      · exact h2 ▸ Nat.le_of_not_lt hc
      · exact Nat.le_trans (hy z h2) (Nat.le_of_not_lt hc)

theorem sortByCountDesc_pairwise (l : List CommonRow) :
    List.Pairwise (fun a b => b.appears_in ≤ a.appears_in) (sortByCountDesc l) := by
  induction l with
  | nil => simp [sortByCountDesc]
  | cons x xs ih => exact insertByCountDesc_pairwise ih

theorem insertByCountDesc_filter_count (x : CommonRow) (l : List CommonRow) (k : Nat) :
    (insertByCountDesc x l).filter (fun r => r.appears_in == k) =
      (x :: l).filter (fun r => r.appears_in == k) := by
  induction l with
  | nil => rw [insertByCountDesc]
  | cons y ys ih =>
    rw [insertByCountDesc]
    by_cases hc : x.appears_in < y.appears_in
    · rw [if_pos hc]
      by_cases hxk : x.appears_in = k
      · have hyk : ¬ y.appears_in = k := by omega
        simp [List.filter_cons, hxk, hyk, ih]
      · simp [List.filter_cons, hxk, ih]
    · rw [if_neg hc]

theorem sortByCountDesc_filter_count (l : List CommonRow) (k : Nat) :
    (sortByCountDesc l).filter (fun r => r.appears_in == k) =
      l.filter (fun r => r.appears_in == k) := by
  induction l with
  | nil => rfl
  | cons x xs ih =>
    show (insertByCountDesc x (sortByCountDesc xs)).filter _ = _
    rw [insertByCountDesc_filter_count]
    simp only [List.filter_cons]
    rw [ih]

theorem insertByCountDesc_perm (x : CommonRow) (l : List CommonRow) :
    List.Perm (insertByCountDesc x l) (x :: l) := by
  induction l with
  | nil => rw [insertByCountDesc]
  | cons y ys ih =>
    rw [insertByCountDesc]
    by_cases hc : x.appears_in < y.appears_in
    · rw [if_pos hc]
      exact List.Perm.trans (List.Perm.cons y ih) (List.Perm.swap x y ys)
    · rw [if_neg hc]

theorem sortByCountDesc_perm (l : List CommonRow) : List.Perm (sortByCountDesc l) l := by
  induction l with
  | nil => exact List.Perm.refl []
  | cons x xs ih =>
    exact List.Perm.trans (insertByCountDesc_perm x (sortByCountDesc xs)) (List.Perm.cons x ih)

theorem mem_firstOccKeys_aux (l : List String) :
    ∀ (acc : List String) (t : String),
      t ∈ l.foldl (fun acc t => if t ∈ acc then acc else acc ++ [t]) acc ↔
        t ∈ acc ∨ t ∈ l := by
  induction l with
  | nil => intro acc t; simp
  | cons x xs ih =>
    intro acc t
    rw [List.foldl_cons, ih]
    by_cases hx : x ∈ acc
    · rw [if_pos hx]
      constructor
      · rintro (h | h)
        · exact Or.inl h
        · exact Or.inr (List.mem_cons_of_mem x h)
      · rintro (h | h)
        · exact Or.inl h
        · rcases List.mem_cons.1 h with h2 | h2
          · exact Or.inl (h2 ▸ hx)
          · exact Or.inr h2
    · rw [if_neg hx]
      simp only [List.mem_append, List.mem_singleton, List.mem_cons]
      tauto

theorem mem_firstOccKeys (l : List String) (t : String) :
    t ∈ firstOccKeys l ↔ t ∈ l := by
  rw [firstOccKeys, mem_firstOccKeys_aux]
  simp

theorem firstOccKeys_nodup_aux (l : List String) :
    ∀ (acc : List String), acc.Nodup →
      (l.foldl (fun acc t => if t ∈ acc then acc else acc ++ [t]) acc).Nodup := by
  induction l with
  | nil => intro acc h; exact h
  | cons x xs ih =>
    intro acc h
    rw [List.foldl_cons]
    by_cases hx : x ∈ acc
    · rw [if_pos hx]; exact ih acc h
    · rw [if_neg hx]
      refine ih _ ?_
      rw [List.nodup_append]
      exact ⟨h, List.nodup_singleton x, fun a ha hax => hx (List.mem_singleton.1 hax ▸ ha)⟩

theorem firstOccKeys_nodup (l : List String) : (firstOccKeys l).Nodup := by
  exact firstOccKeys_nodup_aux l [] List.nodup_nil

theorem firstOccKeys_perm_dedup (l : List String) :
    List.Perm (firstOccKeys l) l.dedup := by
  refine (List.perm_ext_iff_of_nodup (firstOccKeys_nodup l) (List.nodup_dedup l)).2 ?_
  intro a
  rw [mem_firstOccKeys, List.mem_dedup]

theorem commonalityUnsorted_map_stock (s : Store) (sel : List IndexRec) :
    (commonalityUnsorted s sel).map (fun r => r.stock) = firstOccKeys (allTickers s sel) := by
  unfold commonalityUnsorted allTickers
  rw [List.map_map]
  exact List.map_id _

/-! ### Claim theorems for the Overlap Analyzer (C7, C8) -/

/-- C8: the commonality rows returned by `analyze_common_stocks` are ordered
by appearance count descending, and for every count value the rows carrying
it appear in exactly the order of `commonalityUnsorted` — whose key order is
the first-encounter order of the tickers — so ties retain first-encounter
order (the sort is stable). -/
theorem C8_commonality_sorted_stable (s : Store) (index_ids : List Nat) :
    List.Pairwise (fun a b => b.appears_in ≤ a.appears_in)
      (analyze_common_stocks s index_ids).commonality ∧
    (∀ k : Nat,
      (analyze_common_stocks s index_ids).commonality.filter (fun r => r.appears_in == k) =
        (commonalityUnsorted s (selectedIndices s index_ids)).filter
          (fun r => r.appears_in == k)) ∧
    (commonalityUnsorted s (selectedIndices s index_ids)).map (fun r => r.stock) =
      firstOccKeys (allTickers s (selectedIndices s index_ids)) := by
  by_cases hsel : (selectedIndices s index_ids).isEmpty
  · have h0 : selectedIndices s index_ids = [] := List.isEmpty_iff.1 hsel
    have hcomm : (analyze_common_stocks s index_ids).commonality = [] := by
      simp [analyze_common_stocks, hsel]
    refine ⟨hcomm ▸ List.Pairwise.nil, ?_, commonalityUnsorted_map_stock s _⟩
    intro k
    rw [hcomm, h0]
    rfl
  · have hcomm : (analyze_common_stocks s index_ids).commonality =
        sortByCountDesc (commonalityUnsorted s (selectedIndices s index_ids)) := by
      simp [analyze_common_stocks, hsel]
    refine ⟨hcomm ▸ sortByCountDesc_pairwise _, ?_, commonalityUnsorted_map_stock s _⟩
    intro k
    rw [hcomm, sortByCountDesc_filter_count]

/-- C7: `high_overlap_stocks` equals the number of distinct tickers of the
selection whose appearance count is at least `0.7` times the number of
selected (matched) indices — the comparison is `≥`, not a strict one. -/
theorem C7_high_overlap_threshold (s : Store) (index_ids : List Nat) :
    (analyze_common_stocks s index_ids).summary.high_overlap_stocks =
      ((allTickers s (selectedIndices s index_ids)).dedup.filter
        (fun t => ((allTickers s (selectedIndices s index_ids)).count t : ℚ) ≥
          0.7 * (((selectedIndices s index_ids).length : ℚ)))).length := by
  by_cases hsel : (selectedIndices s index_ids).isEmpty
  · have h0 : selectedIndices s index_ids = [] := List.isEmpty_iff.1 hsel
    have hh : (analyze_common_stocks s index_ids).summary.high_overlap_stocks = 0 := by
      simp [analyze_common_stocks, hsel]
    rw [hh, h0]
    rfl
  · set sel := selectedIndices s index_ids with hseldef
    set all := allTickers s sel with halldef
    set U := commonalityUnsorted s sel with hUdef
    have hperm : List.Perm (sortByCountDesc U) U := sortByCountDesc_perm U
    by_cases htot : (sortByCountDesc U).length = 0
    · -- no rows at all: both sides are 0
      have hU : U = [] := by
        have := hperm.length_eq
        rw [htot] at this
        exact List.length_eq_zero.1 this.symm
      have hall : all = [] := by
        have hkeys : firstOccKeys all = [] := by
          have := commonalityUnsorted_map_stock s sel
          rw [← hUdef, hU] at this
          exact this.symm
        cases hall2 : all with
        | nil => rfl
        | cons a as =>
          have : a ∈ firstOccKeys all := (mem_firstOccKeys all a).2 (by rw [hall2]; simp)
          rw [hkeys] at this
          exact absurd this (List.not_mem_nil a)
      have hh : (analyze_common_stocks s index_ids).summary.high_overlap_stocks = 0 := by
        simp [analyze_common_stocks, hsel, ← hseldef, ← hUdef, htot]
      rw [hh, hall]
      rfl
    · have hh : (analyze_common_stocks s index_ids).summary.high_overlap_stocks =
          ((sortByCountDesc U).filter
            (fun r => (r.appears_in : ℚ) ≥ 0.7 * ((sel.length : ℚ)))).length := by
        simp [analyze_common_stocks, hsel, ← hseldef, ← hUdef, htot, Nat.pos_of_ne_zero htot]
      rw [hh]
      have h1 : ((sortByCountDesc U).filter
            (fun r => (r.appears_in : ℚ) ≥ 0.7 * ((sel.length : ℚ)))).length =
          (U.filter (fun r => (r.appears_in : ℚ) ≥ 0.7 * ((sel.length : ℚ)))).length :=
        (hperm.filter _).length_eq
      have hUeq : U = (firstOccKeys all).map
          (fun t => CommonRow.mk t (all.count t)
            (((tickerPairs s sel).filter (fun p => p.2 == t)).map Prod.fst)) := rfl
      rw [h1, hUeq]
      rw [List.filter_map, List.length_map]
      have h2 : List.Perm
          ((firstOccKeys all).filter
            (fun t => decide ((all.count t : ℚ) ≥ 0.7 * ((sel.length : ℚ)))))
          (all.dedup.filter
            (fun t => decide ((all.count t : ℚ) ≥ 0.7 * ((sel.length : ℚ))))) :=
        (firstOccKeys_perm_dedup all).filter _
      rw [show ((fun r : CommonRow => decide ((r.appears_in : ℚ) ≥ 0.7 * ((sel.length : ℚ)))) ∘
          (fun t => CommonRow.mk t (all.count t)
            (((tickerPairs s sel).filter (fun p => p.2 == t)).map Prod.fst))) =
          (fun t => decide ((all.count t : ℚ) ≥ 0.7 * ((sel.length : ℚ)))) from rfl]
      exact h2.length_eq

/-! ### Helper lemmas about the Constituent Loader -/

theorem loadLoop_indices (i0 : Nat) (ts : List String) :
    ∀ (s : Store) (pending : List ConstituentRec) (cnt : Nat),
      (loadLoop i0 ts s pending cnt).1.indices = s.indices := by
  induction ts with
  | nil => intro s pending cnt; rfl
  | cons t ts ih =>
    intro s pending cnt
    rw [loadLoop]
    cases hfind : s.stocks.find? (fun st => st.ticker == t) with
    | some st => exact ih s _ _
    | none =>
      by_cases hok : flushOk s.constituents pending
      · rw [if_pos hok]
        exact ih _ _ _
      · rw [if_neg hok]

theorem find?_cons_ite {α : Type} (p : α → Bool) (a : α) (l : List α) :
    (a :: l).find? p = if p a then some a else l.find? p := by
  cases h : p a
  · rw [if_neg (by simp [h]), List.find?_cons, h]
  · rw [if_pos (by simp [h]), List.find?_cons, h]

theorem find?_id_map (l : List IndexRec) (g : IndexRec → IndexRec)
    (hid : ∀ y, (g y).id = y.id) (k : Nat) :
    (l.map g).find? (fun x => x.id == k) = (l.find? (fun x => x.id == k)).map g := by
  induction l with
  | nil => rfl
  | cons y ys ih =>
    rw [List.map_cons, find?_cons_ite, find?_cons_ite]
    by_cases hk : y.id = k
    · rw [if_pos (show ((g y).id == k) = true by rw [hid y]; simpa using hk),
        if_pos (show (y.id == k) = true by simpa using hk)]
      rfl
    · rw [if_neg (show ¬ ((g y).id == k) = true by rw [hid y]; simpa using hk),
        if_neg (show ¬ (y.id == k) = true by simpa using hk), ih]

theorem find?_id_of_mem (l : List IndexRec) (hnd : (l.map (fun j => j.id)).Nodup)
    (j : IndexRec) (hj : j ∈ l) : l.find? (fun x => x.id == j.id) = some j := by
  induction l with
  | nil => exact absurd hj (List.not_mem_nil j)
  | cons y ys ih =>
    have hnd' : (y.id :: ys.map (fun x => x.id)).Nodup := by simpa using hnd
    have hnd2 := List.nodup_cons.1 hnd'
    rcases List.mem_cons.1 hj with hje | hje
    · rw [hje, find?_cons_ite, if_pos (by simp)]
    · have hyne : ¬ y.id = j.id := by
        intro he
        exact hnd2.1 (he ▸ List.mem_map_of_mem (fun x => x.id) hje)
      rw [find?_cons_ite, if_neg (by simpa using hyne)]
      exact ih hnd2.2 hje

theorem resolveById_mem {s : Store} {index_id : Option Nat} {j : IndexRec}
    (h : resolveById s index_id = some j) : j ∈ s.indices := by
  cases index_id with
  | none => exact absurd h (by simp [resolveById])
  | some i =>
    rw [resolveById] at h
    by_cases hi0 : i ≠ 0
    · rw [if_pos hi0] at h
      exact List.mem_of_find?_eq_some h
    · rw [if_neg hi0] at h
      exact absurd h (by simp)

theorem resolveIndex_mem {s : Store} {file_name : String} {index_id : Option Nat}
    {j : IndexRec} (h : resolveIndex s file_name index_id = some j) : j ∈ s.indices := by
  rw [resolveIndex] at h
  cases hb : resolveById s index_id with
  | some j2 =>
    rw [hb] at h
    have h2 : j2 = j := by simpa using h
    exact h2 ▸ resolveById_mem hb
  | none =>
    rw [hb] at h
    cases hf : s.indices.find? (fun x => x.expected_filename == some file_name) with
    | some j2 =>
      rw [hf] at h
      have h2 : j2 = j := by simpa using h
      exact h2 ▸ List.mem_of_find?_eq_some hf
    | none =>
      rw [hf] at h
      exact List.mem_of_find?_eq_some h

theorem filter_all_i0 {i0 : Nat} {pending : List ConstituentRec}
    (h : ∀ c ∈ pending, c.index_id = i0) :
    pending.filter (fun c => c.index_id == i0) = pending :=
  List.filter_eq_self.2 (fun c hc => by simp [h c hc])

theorem edgesOf_commitStock {i0 : Nat} (s : Store) (pending : List ConstituentRec)
    (t : String) (h : ∀ c ∈ pending, c.index_id = i0) :
    edgesOf (commitStock s pending t) i0 = edgesOf s i0 ++ pending := by
  show (s.constituents ++ pending).filter (fun c => c.index_id == i0) = _
  rw [List.filter_append, filter_all_i0 h]
  rfl

theorem commitStock_find?_new (s : Store) (pending : List ConstituentRec) (t : String)
    (h : s.stocks.find? (fun st => st.ticker == t) = none) :
    (commitStock s pending t).stocks.find? (fun st => st.ticker == t) =
      some ⟨s.nextStockId, t⟩ := by
  show (s.stocks ++ [StockRec.mk s.nextStockId t]).find? (fun st => st.ticker == t) = _
  rw [List.find?_append, h, find?_cons_ite, if_pos (by simp)]
  rfl

theorem commitStock_find?_old (s : Store) (pending : List ConstituentRec) (t t2 : String)
    (x : StockRec) (hx : s.stocks.find? (fun st => st.ticker == t2) = some x) :
    (commitStock s pending t).stocks.find? (fun st => st.ticker == t2) = some x := by
  show (s.stocks ++ [StockRec.mk s.nextStockId t]).find? (fun st => st.ticker == t2) = _
  rw [List.find?_append, hx]
  rfl

theorem sidOf_commitStock_new (s : Store) (pending : List ConstituentRec) (t : String)
    (h : s.stocks.find? (fun st => st.ticker == t) = none) :
    sidOf (commitStock s pending t) t = s.nextStockId := by
  rw [sidOf, commitStock_find?_new s pending t h]

theorem sidOf_commitStock_old (s : Store) (pending : List ConstituentRec) (t t2 : String)
    (hx : (s.stocks.find? (fun st => st.ticker == t2)).isSome) :
    sidOf (commitStock s pending t) t2 = sidOf s t2 := by
  obtain ⟨x, hx2⟩ := Option.isSome_iff_exists.1 hx
  rw [sidOf, sidOf, hx2, commitStock_find?_old s pending t t2 x hx2]

/-- The invariant `LoopInv` is carried through `loadLoop` whenever the loop
runs to completion. -/
theorem loadLoop_inv (i0 : Nat) (ts : List String) :
    ∀ (s : Store) (pending : List ConstituentRec) (cnt : Nat) (p : List String),
      LoopInv i0 s pending cnt p →
      ∀ (s4 : Store) (pend4 : List ConstituentRec) (cnt4 : Nat),
        loadLoop i0 ts s pending cnt = (s4, some (pend4, cnt4)) →
        LoopInv i0 s4 pend4 cnt4 (p ++ ts) := by
  induction ts with
  | nil =>
    intro s pending cnt p hinv s4 pend4 cnt4 hrun
    rw [loadLoop] at hrun
    simp only [Prod.mk.injEq, Option.some.injEq] at hrun
    obtain ⟨hs, hp, hc⟩ := hrun
    subst hs
    subst hp
    subst hc
    simpa using hinv
  | cons t ts ih =>
    intro s pending cnt p hinv s4 pend4 cnt4 hrun
    obtain ⟨hTick, hIds, hBound, hKeys, hPend, hCnt, hFind, hEdges⟩ := hinv
    rw [loadLoop] at hrun
    rw [show p ++ t :: ts = (p ++ [t]) ++ ts by simp]
    cases hfind : s.stocks.find? (fun st => st.ticker == t) with
    | some st =>
      rw [hfind] at hrun
      refine ih s (pending ++ [⟨i0, st.id⟩]) (cnt + 1) (p ++ [t])
        ⟨hTick, hIds, hBound, hKeys, ?_, ?_, ?_, ?_⟩ s4 pend4 cnt4 hrun
      · intro c hc
        rcases List.mem_append.1 hc with hc2 | hc2
        · exact hPend c hc2
        · rw [List.mem_singleton.1 hc2]
      · rw [hCnt]
        simp
      · intro t2 ht2
        rcases List.mem_append.1 ht2 with ht3 | ht3
        · exact hFind t2 ht3
        · rw [List.mem_singleton.1 ht3, hfind]
          rfl
      · rw [← List.append_assoc, hEdges, List.map_append]
        congr 1
        rw [List.map_singleton]
        congr 1
        show ConstituentRec.mk i0 st.id = ConstituentRec.mk i0 (sidOf s t)
        rw [sidOf, hfind]
    | none =>
      rw [hfind] at hrun
      by_cases hok : flushOk s.constituents pending
      · rw [if_pos hok] at hrun
        have htnotin : ∀ st ∈ s.stocks, st.ticker ≠ t := by
          intro st hst
          have := List.find?_eq_none.1 hfind st hst
          simpa using this
        refine ih (commitStock s pending t) [⟨i0, s.nextStockId⟩] (cnt + 1) (p ++ [t])
          ⟨?_, ?_, ?_, ?_, ?_, ?_, ?_, ?_⟩ s4 pend4 cnt4 hrun
        · -- ticker uniqueness after appending the new stock
          show ((s.stocks ++ [StockRec.mk s.nextStockId t]).map (fun st => st.ticker)).Nodup
          rw [List.map_append, List.nodup_append]
          refine ⟨hTick, by simp, ?_⟩
          intro a ha hax
          have hax2 : a = t := by simpa using hax
          rcases List.mem_map.1 ha with ⟨st, hst, hste⟩
          exact htnotin st hst (by rw [hste, hax2])
        · show ((s.stocks ++ [StockRec.mk s.nextStockId t]).map (fun st => st.id)).Nodup
          rw [List.map_append, List.nodup_append]
          refine ⟨hIds, by simp, ?_⟩
          intro a ha hax
          have hax2 : a = s.nextStockId := by simpa using hax
          rcases List.mem_map.1 ha with ⟨st, hst, hste⟩
          have := hBound st hst
          rw [hste, hax2] at this
          exact absurd this (Nat.lt_irrefl _)
        · intro st hst
          rcases List.mem_append.1 hst with hst2 | hst2
          · exact Nat.lt_succ_of_lt (hBound st hst2)
          · rw [List.mem_singleton.1 hst2]
            exact Nat.lt_succ_self _
        · exact hok
        · intro c hc
          rw [List.mem_singleton.1 hc]
        · rw [hCnt]
          simp
        · intro t2 ht2
          rcases List.mem_append.1 ht2 with ht3 | ht3
          · obtain ⟨x, hx⟩ := Option.isSome_iff_exists.1 (hFind t2 ht3)
            rw [commitStock_find?_old s pending t t2 x hx]
            rfl
          · rw [List.mem_singleton.1 ht3, commitStock_find?_new s pending t hfind]
            rfl
        · -- the edge list equation after the mid-loop commit
          rw [edgesOf_commitStock s pending t hPend, List.map_append, hEdges,
            List.map_singleton, sidOf_commitStock_new s pending t hfind]
          congr 1
          refine List.map_congr_left ?_
          intro t2 ht2
          rw [sidOf_commitStock_old s pending t t2 (hFind t2 ht2)]
      · rw [if_neg hok] at hrun
        exact absurd hrun (by simp)

theorem metaUpdate_id (fn : String) (sz : ℚ) (now : Nat) (cat : Option String)
    (j : IndexRec) : (metaUpdate fn sz now cat j).id = j.id := by
  show (categoryFill cat j).id = j.id
  unfold categoryFill
  cases cat with
  | none => rfl
  | some c =>
    show (if j.category = none ∨ j.category = some "" ∨ j.category = some "Uncategorized"
      then ({ j with category := some c } : IndexRec) else j).id = j.id
    split <;> rfl

theorem metaUpdate_name (fn : String) (sz : ℚ) (now : Nat) (cat : Option String)
    (j : IndexRec) : (metaUpdate fn sz now cat j).name = j.name := by
  show (categoryFill cat j).name = j.name
  unfold categoryFill
  cases cat with
  | none => rfl
  | some c =>
    show (if j.category = none ∨ j.category = some "" ∨ j.category = some "Uncategorized"
      then ({ j with category := some c } : IndexRec) else j).name = j.name
    split <;> rfl

theorem metaUpdate_display_name (fn : String) (sz : ℚ) (now : Nat) (cat : Option String)
    (j : IndexRec) : (metaUpdate fn sz now cat j).display_name = j.display_name := by
  show (categoryFill cat j).display_name = j.display_name
  unfold categoryFill
  cases cat with
  | none => rfl
  | some c =>
    show (if j.category = none ∨ j.category = some "" ∨ j.category = some "Uncategorized"
      then ({ j with category := some c } : IndexRec) else j).display_name = j.display_name
    split <;> rfl

theorem metaUpdate_tv_ticker (fn : String) (sz : ℚ) (now : Nat) (cat : Option String)
    (j : IndexRec) : (metaUpdate fn sz now cat j).tv_ticker = j.tv_ticker := by
  show (categoryFill cat j).tv_ticker = j.tv_ticker
  unfold categoryFill
  cases cat with
  | none => rfl
  | some c =>
    show (if j.category = none ∨ j.category = some "" ∨ j.category = some "Uncategorized"
      then ({ j with category := some c } : IndexRec) else j).tv_ticker = j.tv_ticker
    split <;> rfl

theorem metaUpdate_expected_filename (fn : String) (sz : ℚ) (now : Nat)
    (cat : Option String) (j : IndexRec) :
    (metaUpdate fn sz now cat j).expected_filename = j.expected_filename := by
  show (categoryFill cat j).expected_filename = j.expected_filename
  unfold categoryFill
  cases cat with
  | none => rfl
  | some c =>
    show (if j.category = none ∨ j.category = some "" ∨ j.category = some "Uncategorized"
      then ({ j with category := some c } : IndexRec) else j).expected_filename = j.expected_filename
    split <;> rfl

theorem metaUpdate_is_at_52wh (fn : String) (sz : ℚ) (now : Nat) (cat : Option String)
    (j : IndexRec) : (metaUpdate fn sz now cat j).is_at_52wh = j.is_at_52wh := by
  show (categoryFill cat j).is_at_52wh = j.is_at_52wh
  unfold categoryFill
  cases cat with
  | none => rfl
  | some c =>
    show (if j.category = none ∨ j.category = some "" ∨ j.category = some "Uncategorized"
      then ({ j with category := some c } : IndexRec) else j).is_at_52wh = j.is_at_52wh
    split <;> rfl

theorem metaUpdate_category_frame (fn : String) (sz : ℚ) (now : Nat) (cat : Option String)
    (j : IndexRec) (h1 : j.category ≠ none) (h2 : j.category ≠ some "")
    (h3 : j.category ≠ some "Uncategorized") :
    (metaUpdate fn sz now cat j).category = j.category := by
  show (categoryFill cat j).category = j.category
  unfold categoryFill
  cases cat with
  | none => rfl
  | some c =>
    show (if j.category = none ∨ j.category = some "" ∨ j.category = some "Uncategorized"
      then ({ j with category := some c } : IndexRec) else j).category = j.category
    rw [if_neg]
    intro hor
    rcases hor with h | h | h
    · exact h1 h
    · exact h2 h
    · exact h3 h

/-- The invariant holds on loop entry, right after the committed delete. -/
theorem LoopInv_clear (i0 : Nat) (s1 : Store)
    (h1 : (s1.stocks.map (fun st => st.ticker)).Nodup)
    (h2 : (s1.stocks.map (fun st => st.id)).Nodup)
    (h3 : ∀ st ∈ s1.stocks, st.id < s1.nextStockId)
    (h4 : (s1.constituents.map edgeKey).Nodup) :
    LoopInv i0 (clearConstituents s1 i0) [] 0 [] := by
  refine ⟨h1, h2, h3, ?_, by simp, rfl, by simp, ?_⟩
  · show ((s1.constituents.filter (fun c => c.index_id != i0)).map edgeKey).Nodup
    exact h4.sublist ((List.filter_sublist _).map edgeKey)
  · show edgesOf (clearConstituents s1 i0) i0 ++ [] = []
    rw [List.append_nil]
    show (s1.constituents.filter (fun c => c.index_id != i0)).filter
      (fun c => c.index_id == i0) = []
    rw [List.filter_filter]
    refine List.filter_eq_nil_iff.2 ?_
    intro c _
    simp

/-- What a successful run of steps 2-3 of the loader guarantees, given the
target index is present: the extracted tickers are pairwise distinct (a
duplicate could never have committed past the composite primary key), the
reported count and the stored `record_count` equal the number of extracted
tickers, and the index's committed membership edges are exactly one edge per
extracted ticker. -/
theorem loader_success_spec (s1 : Store) (i0 : Nat) (iname : String) (file_name : String)
    (lines : List String) (file_size_kb : ℚ) (now : Nat) (category : Option String)
    (j1 : IndexRec) (r : LoadResult)
    (hTick : (s1.stocks.map (fun st => st.ticker)).Nodup)
    (hIds : (s1.stocks.map (fun st => st.id)).Nodup)
    (hBound : ∀ st ∈ s1.stocks, st.id < s1.nextStockId)
    (hKeys : (s1.constituents.map edgeKey).Nodup)
    (hj : s1.indices.find? (fun x => x.id == i0) = some j1)
    (hjname : j1.name = iname)
    (hok : (processResolved s1 i0 iname file_name lines file_size_kb now category).2 =
      some r) :
    (extractTickers lines).Nodup ∧
    r.stocks_added = (extractTickers lines).length ∧
    ∃ j2 ∈ (processResolved s1 i0 iname file_name lines file_size_kb now category).1.indices,
      j2.name = r.index_name ∧
      j2.record_count = (extractTickers lines).length ∧
      ((processResolved s1 i0 iname file_name lines file_size_kb now
          category).1.constituents.filter (fun c => c.index_id == j2.id)).length =
        (extractTickers lines).length ∧
      ∀ t ∈ extractTickers lines,
        ∃ st ∈ (processResolved s1 i0 iname file_name lines file_size_kb now
            category).1.stocks,
          st.ticker = t ∧
          ConstituentRec.mk j2.id st.id ∈
            (processResolved s1 i0 iname file_name lines file_size_kb now
              category).1.constituents := by
  have hgid : ∀ y : IndexRec,
      ((fun y => if y.id = i0 then metaUpdate file_name file_size_kb now category y else y)
        y).id = y.id := by
    intro y
    show (if y.id = i0 then metaUpdate file_name file_size_kb now category y else y).id =
      y.id
    by_cases h : y.id = i0
    · rw [if_pos h, metaUpdate_id]
    · rw [if_neg h]
  have hinv0 := LoopInv_clear i0
    (updIdx s1 i0 (metaUpdate file_name file_size_kb now category)) hTick hIds hBound hKeys
  unfold processResolved at hok ⊢
  cases hloop : loadLoop i0 (extractTickers lines)
      (clearConstituents (updIdx s1 i0 (metaUpdate file_name file_size_kb now category)) i0)
      [] 0 with
  | mk s3 out =>
    rw [hloop] at hok
    have hs3ind : s3.indices =
        (updIdx s1 i0 (metaUpdate file_name file_size_kb now category)).indices := by
      have h5 := loadLoop_indices i0 (extractTickers lines)
        (clearConstituents (updIdx s1 i0 (metaUpdate file_name file_size_kb now category)) i0)
        [] 0
      rw [hloop] at h5
      exact h5
    have hfind3 : s3.indices.find? (fun x => x.id == i0) =
        some (metaUpdate file_name file_size_kb now category j1) := by
      rw [hs3ind]
      show (s1.indices.map
        (fun y => if y.id = i0 then metaUpdate file_name file_size_kb now category y
          else y)).find? (fun x => x.id == i0) = _
      rw [find?_id_map _ _ hgid, hj]
      have hj1id : j1.id = i0 := by
        have := List.find?_some hj
        simpa using this
      show some (if j1.id = i0 then _ else j1) = _
      rw [if_pos hj1id]
    cases out with
    | none => exact absurd hok (by simp [loaderFinish])
    | some pc =>
      obtain ⟨pending, cnt⟩ := pc
      by_cases hfl : flushOk s3.constituents pending
      · rw [loaderFinish, if_pos hfl] at hok ⊢
        have hinv := loadLoop_inv i0 (extractTickers lines) _ [] 0 [] hinv0 s3 pending cnt
          hloop
        rw [List.nil_append] at hinv
        obtain ⟨hT3, hI3, hB3, hK3, hP3, hC3, hF3, hE3⟩ := hinv
        have hr : r = { index_name := iname, stocks_added := cnt } := by
          have := hok
          simpa using this.symm
        have hnd : (extractTickers lines).Nodup := by
          have hsub : List.Sublist ((edgesOf s3 i0 ++ pending).map edgeKey)
              ((s3.constituents ++ pending).map edgeKey) :=
            ((List.filter_sublist _).append (List.Sublist.refl pending)).map edgeKey
          have hnd2 : ((edgesOf s3 i0 ++ pending).map edgeKey).Nodup := hfl.sublist hsub
          rw [hE3, List.map_map] at hnd2
          exact hnd2.of_map _
        have hj1id : j1.id = i0 := by
          have := List.find?_some hj
          simpa using this
        -- the final store's index row for i0
        have hrecid : ∀ y : IndexRec,
            ((fun y => if y.id = i0 then { y with record_count := cnt } else y) y).id =
              y.id := by
          intro y
          show (if y.id = i0 then ({ y with record_count := cnt } : IndexRec) else y).id =
            y.id
          by_cases h : y.id = i0
          · rw [if_pos h]
          · rw [if_neg h]
        have hfindF : (updIdx { s3 with constituents := s3.constituents ++ pending } i0
            (fun y => { y with record_count := cnt })).indices.find?
              (fun x => x.id == i0) =
            some { metaUpdate file_name file_size_kb now category j1 with
                   record_count := cnt } := by
          show (s3.indices.map
            (fun y => if y.id = i0 then { y with record_count := cnt } else y)).find?
              (fun x => x.id == i0) = _
          rw [find?_id_map _ _ hrecid, hfind3]
          show some (if (metaUpdate file_name file_size_kb now category j1).id = i0
            then _ else _) = _
          rw [if_pos (by rw [metaUpdate_id, hj1id])]
        refine ⟨hnd, ?_, ?_⟩
        · rw [hr, hC3]
        · refine ⟨{ metaUpdate file_name file_size_kb now category j1 with
            record_count := cnt }, List.mem_of_find?_eq_some hfindF, ?_, by rw [hC3], ?_, ?_⟩
          · show (metaUpdate file_name file_size_kb now category j1).name = r.index_name
            rw [metaUpdate_name, hjname, hr]
          · -- committed edges of the target index count one per ticker
            have hid2 : ({ metaUpdate file_name file_size_kb now category j1 with
                record_count := cnt } : IndexRec).id = i0 := by
              show (metaUpdate file_name file_size_kb now category j1).id = i0
              rw [metaUpdate_id, hj1id]
            show ((s3.constituents ++ pending).filter
              (fun c => c.index_id == ({ metaUpdate file_name file_size_kb now category j1
                with record_count := cnt } : IndexRec).id)).length = _
            rw [hid2, List.filter_append, filter_all_i0 hP3]
            show (edgesOf s3 i0 ++ pending).length = _
            rw [hE3, List.length_map]
          · intro t ht
            obtain ⟨x, hx⟩ := Option.isSome_iff_exists.1 (hF3 t ht)
            have hid2 : ({ metaUpdate file_name file_size_kb now category j1 with
                record_count := cnt } : IndexRec).id = i0 := by
              show (metaUpdate file_name file_size_kb now category j1).id = i0
              rw [metaUpdate_id, hj1id]
            refine ⟨x, List.mem_of_find?_eq_some hx, ?_, ?_⟩
            · have := List.find?_some hx
              simpa using this
            · show ConstituentRec.mk _ x.id ∈ s3.constituents ++ pending
              rw [hid2]
              have hxid : x.id = sidOf s3 t := by
                rw [sidOf, hx]
              have hmem : ConstituentRec.mk i0 (sidOf s3 t) ∈ edgesOf s3 i0 ++ pending := by
                rw [hE3]
                exact List.mem_map_of_mem _ ht
              rw [hxid]
              rcases List.mem_append.1 hmem with hm | hm
              · exact List.mem_append.2 (Or.inl (List.mem_of_mem_filter hm))
              · exact List.mem_append.2 (Or.inr hm)
      · rw [loaderFinish, if_neg hfl] at hok
        exact absurd hok (by simp)

/-- Frame part of the loader: whatever the outcome (success or raised
commit), the target index's identity fields survive steps 2-3 untouched and
its category survives when it was already meaningfully set. -/
theorem processResolved_frame (s1 : Store) (i0 : Nat) (iname : String) (file_name : String)
    (lines : List String) (file_size_kb : ℚ) (now : Nat) (category : Option String)
    (j1 : IndexRec) (hj : s1.indices.find? (fun x => x.id == i0) = some j1) :
    ∃ j2, (processResolved s1 i0 iname file_name lines file_size_kb now
        category).1.indices.find? (fun x => x.id == i0) = some j2 ∧
      j2.name = j1.name ∧ j2.display_name = j1.display_name ∧
      j2.tv_ticker = j1.tv_ticker ∧ j2.expected_filename = j1.expected_filename ∧
      j2.is_at_52wh = j1.is_at_52wh ∧
      (j1.category ≠ none → j1.category ≠ some "" → j1.category ≠ some "Uncategorized" →
        j2.category = j1.category) := by
  have hgid : ∀ y : IndexRec,
      ((fun y => if y.id = i0 then metaUpdate file_name file_size_kb now category y else y)
        y).id = y.id := by
    intro y
    show (if y.id = i0 then metaUpdate file_name file_size_kb now category y else y).id =
      y.id
    by_cases h : y.id = i0
    · rw [if_pos h, metaUpdate_id]
    · rw [if_neg h]
  have hj1id : j1.id = i0 := by
    have := List.find?_some hj
    simpa using this
  unfold processResolved
  cases hloop : loadLoop i0 (extractTickers lines)
      (clearConstituents (updIdx s1 i0 (metaUpdate file_name file_size_kb now category)) i0)
      [] 0 with
  | mk s3 out =>
    have hs3ind : s3.indices =
        (updIdx s1 i0 (metaUpdate file_name file_size_kb now category)).indices := by
      have h5 := loadLoop_indices i0 (extractTickers lines)
        (clearConstituents (updIdx s1 i0 (metaUpdate file_name file_size_kb now category)) i0)
        [] 0
      rw [hloop] at h5
      exact h5
    have hfind3 : s3.indices.find? (fun x => x.id == i0) =
        some (metaUpdate file_name file_size_kb now category j1) := by
      rw [hs3ind]
      show (s1.indices.map
        (fun y => if y.id = i0 then metaUpdate file_name file_size_kb now category y
          else y)).find? (fun x => x.id == i0) = _
      rw [find?_id_map _ _ hgid, hj]
      show some (if j1.id = i0 then _ else j1) = _
      rw [if_pos hj1id]
    cases out with
    | none =>
      refine ⟨metaUpdate file_name file_size_kb now category j1, hfind3,
        metaUpdate_name _ _ _ _ _, metaUpdate_display_name _ _ _ _ _,
        metaUpdate_tv_ticker _ _ _ _ _, metaUpdate_expected_filename _ _ _ _ _,
        metaUpdate_is_at_52wh _ _ _ _ _, ?_⟩
      intro h1 h2 h3
      exact metaUpdate_category_frame _ _ _ _ _ h1 h2 h3
    | some pc =>
      obtain ⟨pending, cnt⟩ := pc
      by_cases hfl : flushOk s3.constituents pending
      · rw [loaderFinish, if_pos hfl]
        have hrecid : ∀ y : IndexRec,
            ((fun y => if y.id = i0 then { y with record_count := cnt } else y) y).id =
              y.id := by
          intro y
          show (if y.id = i0 then ({ y with record_count := cnt } : IndexRec) else y).id =
            y.id
          by_cases h : y.id = i0
          · rw [if_pos h]
          · rw [if_neg h]
        have hfindF : (updIdx { s3 with constituents := s3.constituents ++ pending } i0
            (fun y => { y with record_count := cnt })).indices.find?
              (fun x => x.id == i0) =
            some { metaUpdate file_name file_size_kb now category j1 with
                   record_count := cnt } := by
          show (s3.indices.map
            (fun y => if y.id = i0 then { y with record_count := cnt } else y)).find?
              (fun x => x.id == i0) = _
          rw [find?_id_map _ _ hrecid, hfind3]
          show some (if (metaUpdate file_name file_size_kb now category j1).id = i0
            then _ else _) = _
          rw [if_pos (by rw [metaUpdate_id, hj1id])]
        refine ⟨{ metaUpdate file_name file_size_kb now category j1 with
          record_count := cnt }, hfindF, ?_, ?_, ?_, ?_, ?_, ?_⟩
        · show (metaUpdate file_name file_size_kb now category j1).name = j1.name
          exact metaUpdate_name _ _ _ _ _
        · show (metaUpdate file_name file_size_kb now category j1).display_name =
            j1.display_name
          exact metaUpdate_display_name _ _ _ _ _
        · show (metaUpdate file_name file_size_kb now category j1).tv_ticker = j1.tv_ticker
          exact metaUpdate_tv_ticker _ _ _ _ _
        · show (metaUpdate file_name file_size_kb now category j1).expected_filename =
            j1.expected_filename
          exact metaUpdate_expected_filename _ _ _ _ _
        · show (metaUpdate file_name file_size_kb now category j1).is_at_52wh =
            j1.is_at_52wh
          exact metaUpdate_is_at_52wh _ _ _ _ _
        · intro h1 h2 h3
          show (metaUpdate file_name file_size_kb now category j1).category = j1.category
          exact metaUpdate_category_frame _ _ _ _ _ h1 h2 h3
      · rw [loaderFinish, if_neg hfl]
        refine ⟨metaUpdate file_name file_size_kb now category j1, hfind3,
          metaUpdate_name _ _ _ _ _, metaUpdate_display_name _ _ _ _ _,
          metaUpdate_tv_ticker _ _ _ _ _, metaUpdate_expected_filename _ _ _ _ _,
          metaUpdate_is_at_52wh _ _ _ _ _, ?_⟩
        intro h1 h2 h3
        exact metaUpdate_category_frame _ _ _ _ _ h1 h2 h3

/-! ### Claim theorems for the Constituent Loader (C1, C10) -/

/-- C1 (amended): for every constituent upload that completes successfully,
`record_count` and the reported count equal the number of non-empty ticker
lines, and the target index's committed membership edges are exactly one edge
per extracted ticker occurrence — but such an upload necessarily has pairwise
distinct extracted tickers: a file with a duplicated ticker never completes
successfully, because the duplicate edge violates the composite primary key
`(index_id, stock_id)` of `index_constituents` (see the counterexample for
the spec's 3-line duplicate scenario). -/
theorem C1_successful_upload_counts (s : Store) (file_name : String) (lines : List String)
    (file_size_kb : ℚ) (now : Nat) (index_id : Option Nat) (category : Option String)
    (r : LoadResult) (hwf : LoadWF s)
    (hok : (process_index_csv s file_name lines file_size_kb now index_id category).2 =
      some r) :
    (extractTickers lines).Nodup ∧
    r.stocks_added = (extractTickers lines).length ∧
    ∃ j2 ∈ (process_index_csv s file_name lines file_size_kb now index_id
        category).1.indices,
      j2.name = r.index_name ∧
      j2.record_count = (extractTickers lines).length ∧
      ((process_index_csv s file_name lines file_size_kb now index_id
          category).1.constituents.filter (fun c => c.index_id == j2.id)).length =
        (extractTickers lines).length ∧
      ∀ t ∈ extractTickers lines,
        ∃ st ∈ (process_index_csv s file_name lines file_size_kb now index_id
            category).1.stocks,
          st.ticker = t ∧
          ConstituentRec.mk j2.id st.id ∈
            (process_index_csv s file_name lines file_size_kb now index_id
              category).1.constituents := by
  obtain ⟨⟨hTick, hIds, hBound⟩, hKeys, hIdxIds, hIdxBound⟩ := hwf
  unfold process_index_csv at hok ⊢
  cases hres : resolveIndex s file_name index_id with
  | some j =>
    rw [hres] at hok
    exact loader_success_spec s j.id j.name file_name lines file_size_kb now category j r
      hTick hIds hBound hKeys (find?_id_of_mem s.indices hIdxIds j (resolveIndex_mem hres))
      rfl hok
  | none =>
    rw [hres] at hok
    have hjC : ({ s with indices := s.indices ++ [loaderNewIndex s file_name now category],
                         nextIndexId := s.nextIndexId + 1 } : Store).indices.find?
        (fun x => x.id == s.nextIndexId) = some (loaderNewIndex s file_name now category) := by
      show (s.indices ++ [loaderNewIndex s file_name now category]).find?
        (fun x => x.id == s.nextIndexId) = _
      have h1 : s.indices.find? (fun x => x.id == s.nextIndexId) = none := by
        rw [List.find?_eq_none]
        intro x hx
        simp only [beq_iff_eq]
        exact Nat.ne_of_lt (hIdxBound x hx)
      rw [List.find?_append, h1, find?_cons_ite, if_pos (by simp [loaderNewIndex])]
      rfl
    exact loader_success_spec _ s.nextIndexId (indexNameFromFile file_name) file_name lines
      file_size_kb now category (loaderNewIndex s file_name now category) r
      hTick hIds hBound hKeys hjC rfl hok

/-- Witness for `C1_successful_upload_counts`: the duplicate-free upload of
`NIFTY_BANK.csv` with lines HDFCBANK, ICICIBANK into the empty store
succeeds, and the theorem applies to it. -/
theorem C1_successful_upload_counts_witness :
    (extractTickers ["HDFCBANK", "ICICIBANK"]).Nodup ∧
    (LoadResult.mk "NIFTY_BANK" 2).stocks_added =
      (extractTickers ["HDFCBANK", "ICICIBANK"]).length := by
  have h := C1_successful_upload_counts Store.empty "NIFTY_BANK.csv"
    ["HDFCBANK", "ICICIBANK"] 1 7 none none (LoadResult.mk "NIFTY_BANK" 2)
    (by decide) (by decide)
  exact ⟨h.1, h.2.1⟩

/-- C10: when a constituent upload resolves to an already existing index (by
explicit id, expected-filename match, or legacy name match — `resolveIndex`),
`process_index_csv` leaves that index's `name`, `display_name`, `tv_ticker`,
`expected_filename` and `is_at_52wh` unchanged in every outcome, and leaves
`category` unchanged whenever it was already set to something other than
empty or "Uncategorized". -/
theorem C10_existing_index_frame (s : Store) (file_name : String) (lines : List String)
    (file_size_kb : ℚ) (now : Nat) (index_id : Option Nat) (category : Option String)
    (j : IndexRec) (hids : (s.indices.map (fun x => x.id)).Nodup)
    (hres : resolveIndex s file_name index_id = some j) :
    ∃ j2, (process_index_csv s file_name lines file_size_kb now index_id
        category).1.indices.find? (fun x => x.id == j.id) = some j2 ∧
      j2.name = j.name ∧ j2.display_name = j.display_name ∧
      j2.tv_ticker = j.tv_ticker ∧ j2.expected_filename = j.expected_filename ∧
      j2.is_at_52wh = j.is_at_52wh ∧
      (j.category ≠ none → j.category ≠ some "" → j.category ≠ some "Uncategorized" →
        j2.category = j.category) := by
  unfold process_index_csv
  rw [hres]
  exact processResolved_frame s j.id j.name file_name lines file_size_kb now category j
    (find?_id_of_mem s.indices hids j (resolveIndex_mem hres))

/-- Witness for `C10_existing_index_frame`: an upload auto-matched by
`expected_filename` to a configured index leaves its identity fields intact. -/
theorem C10_existing_index_frame_witness :
    ∃ j2, (process_index_csv
        ⟨[⟨4, "NIFTY_BANK", some "Banking", "Nifty Bank", some "NSE:NIFTYBANK",
            some "NIFTY_BANK.csv", true, none, 0, none, 0⟩], [], [], [], 5, 0⟩
        "NIFTY_BANK.csv" ["HDFCBANK"] 1 7 none none).1.indices.find?
          (fun x => x.id == (4 : Nat)) = some j2 ∧
      j2.name = "NIFTY_BANK" ∧ j2.tv_ticker = some "NSE:NIFTYBANK" ∧
      j2.category = some "Banking" := by
  have h := C10_existing_index_frame
    ⟨[⟨4, "NIFTY_BANK", some "Banking", "Nifty Bank", some "NSE:NIFTYBANK",
        some "NIFTY_BANK.csv", true, none, 0, none, 0⟩], [], [], [], 5, 0⟩
    "NIFTY_BANK.csv" ["HDFCBANK"] 1 7 none none
    ⟨4, "NIFTY_BANK", some "Banking", "Nifty Bank", some "NSE:NIFTYBANK",
      some "NIFTY_BANK.csv", true, none, 0, none, 0⟩ (by decide) (by decide)
  obtain ⟨j2, hfind, hn, _, htv, _, _, hcat⟩ := h
  exact ⟨j2, hfind, hn, htv, hcat (by decide) (by decide) (by decide)⟩

/-! ### Helper lemmas and claim theorems for the Configuration Reconciler (C3, C4) -/

theorem stageTVUpsert_indices (flushed s : Store) (tv : String) (i0 : Nat) :
    (stageTVUpsert flushed s tv i0).indices = s.indices := by
  rw [stageTVUpsert]
  split
  · split
    · rfl
    · rfl
  · rfl

theorem updIdx_find_id (s : Store) (i : Nat) (f : IndexRec → IndexRec)
    (hid : ∀ y, (f y).id = y.id) (k : Nat) :
    (updIdx s i f).indices.find? (fun x => x.id == k) =
      (s.indices.find? (fun x => x.id == k)).map (fun y => if y.id = i then f y else y) := by
  show (s.indices.map (fun y => if y.id = i then f y else y)).find? (fun x => x.id == k) = _
  refine find?_id_map s.indices (fun y => if y.id = i then f y else y) ?_ k
  intro y
  show (if y.id = i then f y else y).id = y.id
  by_cases h : y.id = i
  · rw [if_pos h]
    exact hid y
  · rw [if_neg h]

/-- `find?`-by-id transport through the display-name staging: the found row
keeps its id and `expected_filename`. -/
theorem find_id_stepDisplay (s : Store) (i0 : Nat) (row : ConfigRow) (k : Nat)
    (j2 : IndexRec)
    (h : (stepDisplay s i0 row).indices.find? (fun x => x.id == k) = some j2) :
    ∃ y, s.indices.find? (fun x => x.id == k) = some y ∧ j2.id = y.id ∧
      j2.expected_filename = y.expected_filename := by
  rw [stepDisplay] at h
  by_cases hd : row.DisplayName ≠ ""
  · rw [if_pos hd, updIdx_find_id s i0
      (fun j => { j with display_name := row.DisplayName }) (fun y => rfl) k] at h
    cases h0 : s.indices.find? (fun x => x.id == k) with
    | none =>
      rw [h0] at h
      simp at h
    | some y =>
      rw [h0] at h
      have h2 : some (if y.id = i0 then { y with display_name := row.DisplayName } else y) =
          some j2 := h
      have h3 := Option.some.inj h2
      refine ⟨y, rfl, ?_, ?_⟩
      · rw [← h3]
        by_cases hy : y.id = i0
        · rw [if_pos hy]
        · rw [if_neg hy]
      · rw [← h3]
        by_cases hy : y.id = i0
        · rw [if_pos hy]
        · rw [if_neg hy]
  · rw [if_neg hd] at h
    exact ⟨j2, h, rfl, rfl⟩

/-- `find?`-by-id transport through the category staging. -/
theorem find_id_stepCategory (s : Store) (i0 : Nat) (row : ConfigRow) (k : Nat)
    (j2 : IndexRec)
    (h : (stepCategory s i0 row).indices.find? (fun x => x.id == k) = some j2) :
    ∃ y, s.indices.find? (fun x => x.id == k) = some y ∧ j2.id = y.id ∧
      j2.expected_filename = y.expected_filename := by
  rw [stepCategory] at h
  by_cases hd : row.Category ≠ ""
  · rw [if_pos hd, updIdx_find_id s i0
      (fun j => { j with category := some row.Category }) (fun y => rfl) k] at h
    cases h0 : s.indices.find? (fun x => x.id == k) with
    | none =>
      rw [h0] at h
      simp at h
    | some y =>
      rw [h0] at h
      have h2 : some (if y.id = i0 then { y with category := some row.Category } else y) =
          some j2 := h
      have h3 := Option.some.inj h2
      refine ⟨y, rfl, ?_, ?_⟩
      · rw [← h3]
        by_cases hy : y.id = i0
        · rw [if_pos hy]
        · rw [if_neg hy]
      · rw [← h3]
        by_cases hy : y.id = i0
        · rw [if_pos hy]
        · rw [if_neg hy]
  · rw [if_neg hd] at h
    exact ⟨j2, h, rfl, rfl⟩

/-- `find?`-by-id transport through the TV-ticker staging. -/
theorem find_id_stepTV (s : Store) (i0 : Nat) (tv : String) (k : Nat)
    (j2 : IndexRec)
    (h : (stepTV s i0 tv).indices.find? (fun x => x.id == k) = some j2) :
    ∃ y, s.indices.find? (fun x => x.id == k) = some y ∧ j2.id = y.id ∧
      j2.expected_filename = y.expected_filename := by
  rw [stepTV, updIdx_find_id s i0
    (fun j => { j with tv_ticker := if tv = "" then none else some tv }) (fun y => rfl) k] at h
  cases h0 : s.indices.find? (fun x => x.id == k) with
  | none =>
    rw [h0] at h
    simp at h
  | some y =>
    rw [h0] at h
    have h2 : some (if y.id = i0 then
        { y with tv_ticker := if tv = "" then none else some tv } else y) = some j2 := h
    have h3 := Option.some.inj h2
    refine ⟨y, rfl, ?_, ?_⟩
    · rw [← h3]
      by_cases hy : y.id = i0
      · rw [if_pos hy]
      · rw [if_neg hy]
    · rw [← h3]
      by_cases hy : y.id = i0
      · rw [if_pos hy]
      · rw [if_neg hy]

/-- `find?`-by-id transport through the staged steal clear on the row with id
`cid`: the found row keeps its id, and its `expected_filename` is cleared
exactly when it is that row. -/
theorem find_id_clear (s : Store) (cid : Nat) (k : Nat) (j2 : IndexRec)
    (h : (updIdx s cid (fun j => { j with expected_filename := none })).indices.find?
      (fun x => x.id == k) = some j2) :
    ∃ y, s.indices.find? (fun x => x.id == k) = some y ∧ j2.id = y.id ∧
      j2.expected_filename = (if y.id = cid then none else y.expected_filename) := by
  rw [updIdx_find_id s cid
    (fun j => { j with expected_filename := none }) (fun y => rfl) k] at h
  cases h0 : s.indices.find? (fun x => x.id == k) with
  | none =>
    rw [h0] at h
    simp at h
  | some y =>
    rw [h0] at h
    have h2 : some (if y.id = cid then { y with expected_filename := none } else y) =
        some j2 := h
    have h3 := Option.some.inj h2
    refine ⟨y, rfl, ?_, ?_⟩
    · rw [← h3]
      by_cases hy : y.id = cid
      · rw [if_pos hy]
      · rw [if_neg hy]
    · rw [← h3]
      by_cases hy : y.id = cid
      · rw [if_pos hy, if_pos hy]
      · rw [if_neg hy, if_neg hy]

/-- `find?`-by-id transport through the unconditional `expected_filename`
assignment on the target `i0` (services.py 87). -/
theorem find_id_stepAssign (s : Store) (i0 : Nat) (filename : String) (k : Nat)
    (j2 : IndexRec)
    (h : (stepAssign s i0 filename).indices.find? (fun x => x.id == k) = some j2) :
    ∃ y, s.indices.find? (fun x => x.id == k) = some y ∧ j2.id = y.id ∧
      j2.expected_filename =
        (if y.id = i0 then (if filename = "" then none else some filename)
         else y.expected_filename) := by
  rw [stepAssign, updIdx_find_id s i0
    (fun j => { j with expected_filename := if filename = "" then none else some filename })
    (fun y => rfl) k] at h
  cases h0 : s.indices.find? (fun x => x.id == k) with
  | none =>
    rw [h0] at h
    simp at h
  | some y =>
    rw [h0] at h
    have h2 : some (if y.id = i0 then
        { y with expected_filename := if filename = "" then none else some filename }
        else y) = some j2 := h
    have h3 := Option.some.inj h2
    refine ⟨y, rfl, ?_, ?_⟩
    · rw [← h3]
      by_cases hy : y.id = i0
      · rw [if_pos hy]
      · rw [if_neg hy]
    · rw [← h3]
      by_cases hy : y.id = i0
      · rw [if_pos hy, if_pos hy]
      · rw [if_neg hy, if_neg hy]

/-- The net effect of one row's staged steps on the session row with id `k`,
when the conflict SELECT found the flushed holder `c`: the target `i0` ends
holding the filename, and the row with the conflict's id ends cleared. -/
theorem steps_find_exp (cs : CfgSession) (i0 : Nat) (row : ConfigRow)
    (filename : String) (c : IndexRec) (hfil : filename ≠ "")
    (hfind : cs.flushed.indices.find?
      (fun j => j.expected_filename == some filename && j.id != i0) = some c)
    (k : Nat) (j2 : IndexRec)
    (hj2 : (updateConfigSteps cs i0 row filename).session.indices.find?
      (fun x => x.id == k) = some j2) :
    j2.id = k ∧
    (k = i0 → j2.expected_filename = some filename) ∧
    (k ≠ i0 → k = c.id → j2.expected_filename = none) := by
  have hj2a : (stageTVUpsert cs.flushed
      (stepAssign
        (stageSteal cs.flushed
          (stepTV (stepCategory (stepDisplay cs.session i0 row) i0 row) i0
            (pyStrip row.TVTicker))
          i0 filename)
        i0 filename)
      (pyStrip row.TVTicker) i0).indices.find? (fun x => x.id == k) = some j2 := hj2
  rw [stageTVUpsert_indices] at hj2a
  obtain ⟨y5, h5, h5id, h5exp⟩ := find_id_stepAssign _ i0 filename k j2 hj2a
  have hsteal : stageSteal cs.flushed
      (stepTV (stepCategory (stepDisplay cs.session i0 row) i0 row) i0
        (pyStrip row.TVTicker)) i0 filename =
      updIdx (stepTV (stepCategory (stepDisplay cs.session i0 row) i0 row) i0
        (pyStrip row.TVTicker)) c.id (fun j => { j with expected_filename := none }) := by
    rw [stageSteal, if_pos hfil, hfind]
  rw [hsteal] at h5
  obtain ⟨y4, h4, h4id, h4exp⟩ := find_id_clear _ c.id k y5 h5
  obtain ⟨y3, h3, h3id, h3exp⟩ := find_id_stepTV _ i0 (pyStrip row.TVTicker) k y4 h4
  obtain ⟨y2, h2, h2id, h2exp⟩ := find_id_stepCategory _ i0 row k y3 h3
  obtain ⟨y1, h1, h1id, h1exp⟩ := find_id_stepDisplay cs.session i0 row k y2 h2
  have hy1k : y1.id = k := by simpa using List.find?_some h1
  have hy2k : y2.id = k := h1id.trans hy1k
  have hy3k : y3.id = k := h2id.trans hy2k
  have hy4k : y4.id = k := h3id.trans hy3k
  have hy5k : y5.id = k := h4id.trans hy4k
  refine ⟨h5id.trans hy5k, ?_, ?_⟩
  · intro hki
    rw [h5exp, if_pos (show y5.id = i0 by rw [hy5k]; exact hki), if_neg hfil]
  · intro hkni hkc
    rw [h5exp, if_neg (show ¬ y5.id = i0 by rw [hy5k]; exact hkni), h4exp,
      if_pos (show y4.id = c.id by rw [hy4k]; exact hkc)]

/-- Whatever the batch, the committed result of the reconciler satisfies the
unique constraints: the success branch passed the commit-time validation, and
a failed batch leaves the already-valid input store committed. -/
theorem cfgCommit_constraints (s : Store) (res : Option (CfgSession × Nat))
    (h : cfgConstraintsOk s) : cfgConstraintsOk (cfgCommit s res).1 := by
  match res with
  | none => exact h
  | some (cs, n) =>
    show cfgConstraintsOk (match cfgFlush cs with
      | some cs2 => (cs2.session, some n)
      | none => (s, none)).1
    rw [cfgFlush]
    by_cases hc : cfgConstraintsOk cs.session
    · rw [if_pos hc]
      exact hc
    · rw [if_neg hc]
      exact h

theorem cfg_run_constraints (s : Store) (rows : List ConfigRow) (now : Nat)
    (h : cfgConstraintsOk s) :
    cfgConstraintsOk (process_master_config_csv s rows now).1 := by
  rw [process_master_config_csv]
  exact cfgCommit_constraints s _ h

/-- C3, counterexample to the claimed steal mechanism: two rows of one batch
claim "f.csv" for the two pre-existing (committed) indices B and C.  Row 1
stages the value on B; row 2's conflict SELECT (services.py 75-78) filters on
the flushed store — `autoflush=False` and no index was created, so nothing was
flushed — and does not see B's staged claim, so nothing is cleared and both
rows stay staged with "f.csv".  The final commit violates the UNIQUE
constraint on `expected_filename` and raises: the function returns the input
store unchanged with `none` instead of the most recently configured row (C)
winning the filename. -/
theorem C3_steal_miss_counterexample :
    process_master_config_csv
      (Store.mk
        [⟨0, "B", none, "Unnamed Index", none, none, false, none, 0, none, 0⟩,
         ⟨1, "C", none, "Unnamed Index", none, none, false, none, 0, none, 0⟩]
        [] [] [] 2 0)
      [⟨"f.csv", "B", "", "", ""⟩, ⟨"f.csv", "C", "", "", ""⟩] 5 =
    (Store.mk
      [⟨0, "B", none, "Unnamed Index", none, none, false, none, 0, none, 0⟩,
       ⟨1, "C", none, "Unnamed Index", none, none, false, none, 0, none, 0⟩]
      [] [] [] 2 0,
     none) := by decide

/-- C3 (amended): (i) committed `expected_filename` uniqueness — after
`process_master_config_csv` each non-null `expected_filename` value is held by
at most one Index, because the final commit validates the UNIQUE constraint
and a failing batch commits nothing.  (ii) The steal works exactly against
holders visible in the flushed state: when the conflict SELECT of services.py
75-78 finds a flushed holder `c` of the row's non-empty filename, the staged
session afterwards has the row with `c`'s id cleared and the target row
holding the filename.  A holder merely staged by an earlier row of the same
batch is invisible to that SELECT, so such a batch aborts at commit instead of
the most recently configured row winning — see
`C3_steal_miss_counterexample`. -/
theorem C3_expected_filename_uniqueness (s : Store) (rows : List ConfigRow) (now : Nat)
    (h : cfgConstraintsOk s) :
    (∀ a ∈ (process_master_config_csv s rows now).1.indices,
      ∀ b ∈ (process_master_config_csv s rows now).1.indices,
        a.expected_filename ≠ none → a.expected_filename = b.expected_filename →
          a.id = b.id) ∧
    (∀ (cs : CfgSession) (i0 : Nat) (row : ConfigRow) (filename : String) (c : IndexRec),
      filename ≠ "" →
      cs.flushed.indices.find?
        (fun j => j.expected_filename == some filename && j.id != i0) = some c →
      (∀ j2, (updateConfigSteps cs i0 row filename).session.indices.find?
        (fun x => x.id == c.id) = some j2 → j2.expected_filename = none) ∧
      (∀ j2, (updateConfigSteps cs i0 row filename).session.indices.find?
        (fun x => x.id == i0) = some j2 → j2.expected_filename = some filename)) := by
  constructor
  · exact (cfg_run_constraints s rows now h).2.1
  · intro cs i0 row filename c hfil hfind
    have hcne : c.id ≠ i0 := by
      have hprop := List.find?_some hfind
      simp only [Bool.and_eq_true, bne_iff_ne] at hprop
      exact hprop.2
    constructor
    · intro j2 hj2
      obtain ⟨-, -, h3⟩ := steps_find_exp cs i0 row filename c hfil hfind c.id j2 hj2
      exact h3 hcne rfl
    · intro j2 hj2
      obtain ⟨-, h2, -⟩ := steps_find_exp cs i0 row filename c hfil hfind i0 j2 hj2
      exact h2 rfl

/-- Witness for `C3_expected_filename_uniqueness`: the spec's steal scenario —
index A holds "list.csv" in the committed store and one batch row names the
existing index B while claiming that filename — commits successfully with A
cleared and B the unique holder; part (i) of the theorem is instantiated at
B's final row. -/
theorem C3_expected_filename_uniqueness_witness :
    cfgConstraintsOk (Store.mk
      [⟨0, "A", none, "Unnamed Index", none, some "list.csv", false, none, 0, none, 0⟩,
       ⟨1, "B", none, "Unnamed Index", none, none, false, none, 0, none, 0⟩]
      [] [] [] 2 0) ∧
    ((process_master_config_csv
        (Store.mk
          [⟨0, "A", none, "Unnamed Index", none, some "list.csv", false, none, 0, none, 0⟩,
           ⟨1, "B", none, "Unnamed Index", none, none, false, none, 0, none, 0⟩]
          [] [] [] 2 0)
        [⟨"list.csv", "B", "", "", ""⟩] 5).1.indices.map
      (fun j => (j.name, j.expected_filename)) = [("A", none), ("B", some "list.csv")]) ∧
    (IndexRec.mk 1 "B" none "Unnamed Index" none (some "list.csv") false none 0 none 0).id =
      (IndexRec.mk 1 "B" none "Unnamed Index" none (some "list.csv") false none 0 none 0).id := by
  refine ⟨by decide, by decide, ?_⟩
  exact (C3_expected_filename_uniqueness
      (Store.mk
        [⟨0, "A", none, "Unnamed Index", none, some "list.csv", false, none, 0, none, 0⟩,
         ⟨1, "B", none, "Unnamed Index", none, none, false, none, 0, none, 0⟩]
        [] [] [] 2 0)
      [⟨"list.csv", "B", "", "", ""⟩] 5 (by decide)).1
    (IndexRec.mk 1 "B" none "Unnamed Index" none (some "list.csv") false none 0 none 0)
    (by decide)
    (IndexRec.mk 1 "B" none "Unnamed Index" none (some "list.csv") false none 0 none 0)
    (by decide) (by decide) rfl

/-- C4, counterexample: rerunning a batch is not idempotent.  Starting store:
X (display "DX") holds "f.csv", Y (display "DY") holds nothing.  Batch: a
nameless row with Filename "f.csv" and DisplayName "Z", then a row naming Y
and claiming "f.csv".  In run 1 the nameless row is routed by filename to X —
the flushed holder — which receives display name "Z", and row 2 then steals
the filename for Y; the run commits.  Run 2's SELECTs filter on that committed
state, in which Y holds "f.csv", so the nameless row is now routed to Y and
stages display name "Z" there.  Both runs commit (both return `some 2`), yet
the second run's final state differs from the first run's: Y's display name
becomes "Z". -/
theorem C4_rerun_divergence_counterexample :
    ((process_master_config_csv
        (Store.mk
          [⟨0, "X", none, "DX", none, some "f.csv", false, none, 0, none, 0⟩,
           ⟨1, "Y", none, "DY", none, none, false, none, 0, none, 0⟩]
          [] [] [] 2 0)
        [⟨"f.csv", "", "Z", "", ""⟩, ⟨"f.csv", "Y", "", "", ""⟩] 5).2 = some 2) ∧
    ((process_master_config_csv
        (process_master_config_csv
          (Store.mk
            [⟨0, "X", none, "DX", none, some "f.csv", false, none, 0, none, 0⟩,
             ⟨1, "Y", none, "DY", none, none, false, none, 0, none, 0⟩]
            [] [] [] 2 0)
          [⟨"f.csv", "", "Z", "", ""⟩, ⟨"f.csv", "Y", "", "", ""⟩] 5).1
        [⟨"f.csv", "", "Z", "", ""⟩, ⟨"f.csv", "Y", "", "", ""⟩] 6).2 = some 2) ∧
    ((process_master_config_csv
        (Store.mk
          [⟨0, "X", none, "DX", none, some "f.csv", false, none, 0, none, 0⟩,
           ⟨1, "Y", none, "DY", none, none, false, none, 0, none, 0⟩]
          [] [] [] 2 0)
        [⟨"f.csv", "", "Z", "", ""⟩, ⟨"f.csv", "Y", "", "", ""⟩] 5).1.indices.map
      (fun j => (j.name, j.display_name, j.expected_filename)) =
        [("X", "Z", none), ("Y", "DY", some "f.csv")]) ∧
    ((process_master_config_csv
        (process_master_config_csv
          (Store.mk
            [⟨0, "X", none, "DX", none, some "f.csv", false, none, 0, none, 0⟩,
             ⟨1, "Y", none, "DY", none, none, false, none, 0, none, 0⟩]
            [] [] [] 2 0)
          [⟨"f.csv", "", "Z", "", ""⟩, ⟨"f.csv", "Y", "", "", ""⟩] 5).1
        [⟨"f.csv", "", "Z", "", ""⟩, ⟨"f.csv", "Y", "", "", ""⟩] 6).1.indices.map
      (fun j => (j.name, j.display_name, j.expected_filename)) =
        [("X", "Z", none), ("Y", "Z", some "f.csv")]) ∧
    (process_master_config_csv
        (process_master_config_csv
          (Store.mk
            [⟨0, "X", none, "DX", none, some "f.csv", false, none, 0, none, 0⟩,
             ⟨1, "Y", none, "DY", none, none, false, none, 0, none, 0⟩]
            [] [] [] 2 0)
          [⟨"f.csv", "", "Z", "", ""⟩, ⟨"f.csv", "Y", "", "", ""⟩] 5).1
        [⟨"f.csv", "", "Z", "", ""⟩, ⟨"f.csv", "Y", "", "", ""⟩] 6).1 ≠
      (process_master_config_csv
        (Store.mk
          [⟨0, "X", none, "DX", none, some "f.csv", false, none, 0, none, 0⟩,
           ⟨1, "Y", none, "DY", none, none, false, none, 0, none, 0⟩]
          [] [] [] 2 0)
        [⟨"f.csv", "", "Z", "", ""⟩, ⟨"f.csv", "Y", "", "", ""⟩] 5).1 := by
  refine ⟨by decide, by decide, by decide, by decide, by decide⟩

/-- C4 (amended): rerunning a configuration batch commits no duplicate index
names and no duplicate alert-map keys — every committed state passed the
unique-constraint validation of the flush/commit, and a failed batch commits
nothing — but the second run does not in general reproduce the first run's
state: its SELECTs filter on the state the first run committed, so a nameless
row routed by `expected_filename` can be resolved to the index that acquired
the filename during the first run and re-stage its metadata there (see
`C4_rerun_divergence_counterexample`). -/
theorem C4_rerun_no_duplicates (s : Store) (rows : List ConfigRow) (now now2 : Nat)
    (h : cfgConstraintsOk s) :
    ((process_master_config_csv
        (process_master_config_csv s rows now).1 rows now2).1.indices.map
      (fun j => j.name)).Nodup ∧
    ((process_master_config_csv
        (process_master_config_csv s rows now).1 rows now2).1.tvmap.map
      (fun m => m.tv_alert_name)).Nodup := by
  have h2 := cfg_run_constraints _ rows now2 (cfg_run_constraints s rows now h)
  exact ⟨h2.1, h2.2.2⟩

/-- Witness for `C4_rerun_no_duplicates` at the divergent batch of the
counterexample: even there, the second run duplicates no index name. -/
theorem C4_rerun_no_duplicates_witness :
    ((process_master_config_csv
        (process_master_config_csv
          (Store.mk
            [⟨0, "X", none, "DX", none, some "f.csv", false, none, 0, none, 0⟩,
             ⟨1, "Y", none, "DY", none, none, false, none, 0, none, 0⟩]
            [] [] [] 2 0)
          [⟨"f.csv", "", "Z", "", ""⟩, ⟨"f.csv", "Y", "", "", ""⟩] 5).1
        [⟨"f.csv", "", "Z", "", ""⟩, ⟨"f.csv", "Y", "", "", ""⟩] 6).1.indices.map
      (fun j => j.name)).Nodup :=
  (C4_rerun_no_duplicates
    (Store.mk
      [⟨0, "X", none, "DX", none, some "f.csv", false, none, 0, none, 0⟩,
       ⟨1, "Y", none, "DY", none, none, false, none, 0, none, 0⟩]
      [] [] [] 2 0)
    [⟨"f.csv", "", "Z", "", ""⟩, ⟨"f.csv", "Y", "", "", ""⟩] 5 6 (by decide)).1

end ProjIdx
